import Mathlib

/-! u2f4moz: the stdin/stdout bridge `c_src/main.c`

A shallow embedding of the frame reader (`read_n_bytes`, `read_action`), the
response encoder (`report_error` and the two `printf` calls of `main`) and the
event loop of `main`, followed by the theorems about them.

Conventions of the embedding.

* A C `char` is a `Char`; a buffer or a string is a `List Char`.  A value of
  type `CString` is the contents of a NUL-terminated string, terminator
  excluded.
* Standard input is a list of read events (`Stream`): every `read(0, buf, n)`
  is answered by the first event, which hands over at most `n` of its bytes.
  An event with no bytes, and the end of the list, is a `read` that returns 0.
  A `read` that fails with -1 is not part of the model.
* The answers of the environment (`poll`, `malloc`, the u2f-host library) are
  parameters.
* A text longer than the buffer of `report_error`, a second `free` of the
  same block and a string pointer that cannot be followed have no defined
  behaviour: the embedding stops there.
* `strtol` accepts a sign, and `read_action` does not check it.  With the
  domain length -1 every store stays inside the block, and the result is
  given exactly.  With any other negative length `read_action` writes on the
  fields of the block or outside it, or leaves a string pointer behind the
  block; it returns the block all the same, and what `main` then finds in it
  is an answer of the environment.
* The POSIX branch of the `#ifdef _WIN32` alternatives is the one embedded.
-/

namespace U2f4moz

/-! ## Standard input -/

/-- Contents of a NUL-terminated string, without the terminator. -/
abbrev CString := List Char

/-- Standard input: the successive read events, each with the bytes it can deliver. -/
abbrev Stream := List (List Char)

/-- One call `read(0, buf, count)` with `count > 0`: the bytes stored in `buf`
(their number is the return value) and the stream left behind. -/
def read (count : Nat) : Stream → List Char × Stream
  | [] => ([], [])
  | c :: rest =>
    if c.length ≤ count then (c, rest) else (c.take count, c.drop count :: rest)

/-- The loop of `read_n_bytes`, unrolled at most `fuel` times.  Every turn that
does not return lowers `len` by at least one, so `fuel = len` turns are enough
(`read_n_bytes_loop_fuel` below). The result is the return value (`true` for 1), the
bytes stored in `buf` and the stream left behind. -/
def read_n_bytes_loop : Nat → Nat → Stream → Bool × List Char × Stream
  | 0, _, s => (true, [], s)
  | fuel + 1, len, s =>
    if len > 0 then
      let r := read len s
      if r.1.length = 0 then (false, [], r.2)
      else
        let t := read_n_bytes_loop fuel (len - r.1.length) r.2
        (t.1, r.1 ++ t.2.1, t.2.2)
    else (true, [], s)

/-- `int read_n_bytes(char *buf, int len)`; a `len` that is not positive skips the loop. -/
def read_n_bytes (len : Int) (s : Stream) : Bool × List Char × Stream :=
  read_n_bytes_loop len.toNat len.toNat s

/-! ## `strtol(_, NULL, 16)` and `printf` conversions -/

/-- `isspace` in the C locale. -/
def isspace (c : Char) : Bool :=
  c.toNat = 32 || (9 ≤ c.toNat && c.toNat ≤ 13)

/-- Value of a hexadecimal digit, `none` for any other character. -/
def xdigit_val (c : Char) : Option Nat :=
  if 48 ≤ c.toNat ∧ c.toNat ≤ 57 then some (c.toNat - 48)
  else if 97 ≤ c.toNat ∧ c.toNat ≤ 102 then some (c.toNat - 87)
  else if 65 ≤ c.toNat ∧ c.toNat ≤ 70 then some (c.toNat - 55)
  else none

/-- `isxdigit`. -/
def isxdigit (c : Char) : Bool := (xdigit_val c).isSome

/-- Value of a run of hexadecimal digits, most significant first. -/
def hexval (ds : List Char) : Nat :=
  ds.foldl (fun acc c => acc * 16 + (xdigit_val c).getD 0) 0

/-- Drops the optional `0x` / `0X` prefix, which counts only when a digit follows it. -/
def strip_0x : List Char → List Char
  | '0' :: x :: h :: t =>
    if (x = 'x' ∨ x = 'X') ∧ isxdigit h then h :: t else '0' :: x :: h :: t
  | s => s

/-- `strtol(s, NULL, 16)` on the characters of `s` (which stand before the
terminator): white space is skipped, then an optional sign, an optional `0x`
and the longest run of hexadecimal digits are read; no digit gives 0. The
strings converted here have at most four characters, so the value fits a
`long`. -/
def strtol16 (s : List Char) : Int :=
  let s1 := s.dropWhile isspace
  let body : List Char → Nat := fun t => hexval ((strip_0x t).takeWhile isxdigit)
  match s1 with
  | '-' :: t => - (body t : Int)
  | '+' :: t => (body t : Int)
  | t => (body t : Int)

/-- Lower-case hexadecimal digit of a value below 16. -/
def hexChar (d : Nat) : Char :=
  if d < 10 then Char.ofNat (48 + d) else Char.ofNat (87 + d)

/-- Hexadecimal digits of `n` pushed in front of `acc`; `fuel` bounds their number. -/
def lxCore : Nat → Nat → List Char → List Char
  | 0, _, acc => acc
  | fuel + 1, n, acc =>
    if n < 16 then hexChar n :: acc else lxCore fuel (n / 16) (hexChar (n % 16) :: acc)

/-- The conversion `%lx` of an `unsigned long` of 64 bits (sixteen digits at most). -/
def printf_lx (n : Nat) : List Char := lxCore 16 (n % 2 ^ 64) []

/-- The conversion `%04lx`: `%lx` padded with zeros on the left up to the
minimum field width 4; a longer number is not cut. -/
def printf_04lx (n : Nat) : List Char :=
  List.replicate (4 - (printf_lx n).length) '0' ++ printf_lx n

/-- The conversion `%d`. -/
def printf_d (n : Int) : List Char := (toString n).toList

/-! ## The frame reader -/

/-- The struct `OP`; a pointer field is `none` when it is `NULL`, otherwise the
bytes stored in front of the terminator it points to. -/
structure OP where
  op : Char
  domain : Option (List Char)
  challenge : Option (List Char)
  deriving DecidableEq, Repr

/-- The static `OP eof_op = {'e'}`: the remaining fields are zero-initialised. -/
def eof_op : OP := { op := 'e', domain := none, challenge := none }

/-- What `read_action` gives back: `NULL`, a pointer to an `OP` (to `eof_op` or
to a fresh block whose two strings hold the bytes read), or a pointer to a
fresh block that a negative length has spoilt (`clobbered`).
`strtol` accepts a sign, so a length can be negative.  With the domain length
-1 and a challenge length that is not negative every store stays inside the
block: `buf->domain[-1]` is the last byte of the field `challenge`, which is
assigned next, and `challenge` then equals `domain`, so that both strings are
the bytes read for the challenge.  With any other negative length the stores
`buf->domain[dol]`, `buf->challenge[chl]` and the bytes read land on the fields
of the block or outside it, or `buf->challenge` is left pointing behind the
block; what `main` then finds through the pointer returned depends on the
layout of memory, and the environment says what it is. -/
inductive Ret where
  | null
  | ptr (a : OP)
  | clobbered
  deriving DecidableEq, Repr

/-- `OP *read_action(int timeout)`.  `ready` says whether `poll` reported one of
`POLLIN|POLLERR|POLLHUP`, `malloc_ok` whether `malloc` returned a block.
The second component is standard input after the call. -/
def read_action (ready malloc_ok : Bool) (stdin : Stream) : Ret × Stream :=
  if !ready then (Ret.null, stdin)
  else
    let r := read 1 stdin
    match r.1 with
    | [] => (Ret.ptr eof_op, r.2)
    | op :: _ =>
      if op = 'r' ∨ op = 's' then
        let h := read_n_bytes 8 r.2
        if !h.1 then (Ret.ptr eof_op, h.2.2)
        else
          let lenghts := h.2.1
          let chl := strtol16 (lenghts.drop 4)
          let dol := strtol16 (lenghts.take 4)
          if !malloc_ok then (Ret.ptr eof_op, h.2.2)
          else
            let d := read_n_bytes dol h.2.2
            if !d.1 then (Ret.ptr eof_op, d.2.2)
            else
              let c := read_n_bytes chl d.2.2
              if !c.1 then (Ret.ptr eof_op, c.2.2)
              else if dol = -1 ∧ 0 ≤ chl then
                (Ret.ptr { op := op, domain := some c.2.1, challenge := some c.2.1 }, c.2.2)
              else if dol < 0 ∨ chl < 0 then (Ret.clobbered, c.2.2)
              else (Ret.ptr { op := op, domain := some d.2.1, challenge := some c.2.1 }, c.2.2)
      else (Ret.ptr eof_op, r.2)

/-! ## The response encoder -/

/-- Modelled from the spec: the enumeration `u2fh_rc` is declared in
`u2f-host.h`, which is not among the sources.  The six constants that `main.c`
names are constructors of their own; `other` stands for every further value,
whether the library defines it or not. -/
inductive u2fh_rc where
  | U2FH_OK
  | U2FH_MEMORY_ERROR
  | U2FH_TRANSPORT_ERROR
  | U2FH_NO_U2F_DEVICE
  | U2FH_AUTHENTICATOR_ERROR
  | U2FH_TIMEOUT_ERROR
  | other (value : Int)
  deriving DecidableEq, Repr

open u2fh_rc

/-- The local `code` of `report_error`. -/
def report_error_code (rc : u2fh_rc) : Int :=
  if rc = U2FH_AUTHENTICATOR_ERROR then 4
  else if rc = U2FH_MEMORY_ERROR ∨ rc = U2FH_TRANSPORT_ERROR then 1
  else if rc = U2FH_TIMEOUT_ERROR then 5
  else 2

/-- The text that `sprintf` composes in `report_error`. -/
def report_error_text (strerror : u2fh_rc → CString) (rc : u2fh_rc)
    (label : Option CString) : List Char :=
  match label with
  | some l =>
    "\x7b\"errorCode\": ".toList ++ printf_d (report_error_code rc)
      ++ ", \"errorMessage\":\"".toList ++ l ++ ":".toList ++ strerror rc ++ "\"\x7d".toList
  | none => "\x7b\"errorCode\": ".toList ++ printf_d (report_error_code rc) ++ "\x7d".toList

/-- `void report_error(u2fh_rc rc, char *label)`: the bytes written to standard
output.  `strerror` is `u2fh_strerror`.  The text and its terminator have to
fit `char buf[1024]`; when they do not, `sprintf` writes past the array and
there is no defined result (`none`). -/
def report_error (strerror : u2fh_rc → CString) (rc : u2fh_rc)
    (label : Option CString) : Option (List Char) :=
  let buf := report_error_text strerror rc label
  if buf.length + 1 ≤ 1024 then some ('e' :: printf_04lx buf.length ++ buf) else none

/-! ## The event loop of `main` -/

/-- `#define TIMEOUT 60`. -/
def TIMEOUT : Nat := 60

/-- `EXIT_FAILURE`. -/
def EXIT_FAILURE : Nat := 1

/-- The string that starts at the beginning of a buffer holding `b` followed by
a terminator: what a callee sees through a `char *`. -/
def cstr (b : List Char) : CString := b.takeWhile (fun c => c ≠ Char.ofNat 0)

/-- The answers of the environment during one run of `main`. The natural
number given to the answers inside the loop is the number of the loop
iteration that asks. -/
structure Env where
  /-- Return value of `u2fh_global_init`. -/
  global_init : u2fh_rc
  /-- Return value of `u2fh_devs_init`. -/
  devs_init : u2fh_rc
  /-- Return value of `u2fh_devs_discover`. -/
  devs_discover : Nat → u2fh_rc
  /-- Whether `poll` reports standard input as readable. -/
  poll : Nat → Bool
  /-- Whether `malloc` returns a block. -/
  malloc : Nat → Bool
  /-- Return value and response of `u2fh_register`, from challenge and origin. -/
  register : Nat → CString → CString → u2fh_rc × CString
  /-- Return value and response of `u2fh_authenticate`, from challenge and origin. -/
  authenticate : Nat → CString → CString → u2fh_rc × CString
  /-- The text of `u2fh_strerror`. -/
  strerror : u2fh_rc → CString
  /-- What `main` finds in a block that a negative length has spoilt, from
  standard input as it was at the call: the bytes read are among those stored.  A string pointer that cannot be followed is `none`; the
  dispatch compares `op` with `e`, `r` and `s` only, and a value that is no
  character is given as some character other than these. -/
  clobber : Stream → OP

/-- What a run does that can be seen from outside, in the order it happens. -/
inductive Event where
  /-- The call `alarm(seconds)`. -/
  | alarm (seconds : Nat)
  | devs_discover
  | read_action
  | sleep (seconds : Nat)
  /-- Bytes written to standard output by one `printf` and flushed. -/
  | write (bytes : List Char)
  | register (challenge origin : CString)
  | authenticate (challenge origin : CString)
  | devs_done
  | global_done
  | exit (status : Nat)
  deriving DecidableEq, Repr

/-- The variables of `main` that live across iterations, standard input, and
the events so far. -/
structure State where
  /-- The local `action`; `none` is `NULL`. -/
  action : Option OP
  /-- The local `dev_insert_send`. -/
  dev_insert_send : Bool
  stdin : Stream
  trace : List Event
  /-- Whether the local `response` points to a block that `free` has released:
  lines 207 and 221 free it and leave the pointer as it is. -/
  response_freed : Bool := false

/-- How a piece of the loop body ends: the body goes on, control jumps to the
label `done`, or the behaviour is not defined. -/
inductive Outcome where
  | next (st : State)
  | done (st : State)
  | undefined (st : State)

/-- The state held by an outcome. -/
def Outcome.state : Outcome → State
  | Outcome.next st => st
  | Outcome.done st => st
  | Outcome.undefined st => st

/-- Appends events to the trace. -/
def State.log (st : State) (es : List Event) : State :=
  { st with trace := st.trace ++ es }

/-- `static void reset_quit_timer()`: `signal(SIGALRM, exit); alarm(TIMEOUT);`. -/
def reset_quit_timer (st : State) : State :=
  st.log [Event.alarm TIMEOUT]

/-- A call `report_error(rc, label)` inside `main`, writing to standard output. -/
def do_report_error (env : Env) (rc : u2fh_rc) (label : Option CString)
    (st : State) : Option State :=
  match report_error env.strerror rc label with
  | some bytes => some (st.log [Event.write bytes])
  | none => none

/-- Lines 180-185: `if (!action) { action = read_action(1000); if (action)
reset_quit_timer(); } else sleep(1);`. -/
def fetch (env : Env) (k : Nat) (st : State) : Outcome :=
  match st.action with
  | none =>
    match read_action (env.poll k) (env.malloc k) st.stdin with
    | (Ret.null, s) => Outcome.next ({ st with stdin := s }.log [Event.read_action])
    | (Ret.ptr a, s) =>
      Outcome.next
        (reset_quit_timer ({ st with action := some a, stdin := s }.log [Event.read_action]))
    | (Ret.clobbered, s) =>
      Outcome.next
        (reset_quit_timer
          ({ st with action := some (env.clobber st.stdin), stdin := s }.log
            [Event.read_action]))
  | some _ => Outcome.next (st.log [Event.sleep 1])

/-- Lines 187-191: the device-insert notice. -/
def notice (rc : u2fh_rc) (st : State) : State :=
  if rc ≠ U2FH_OK ∧ st.dev_insert_send = false then
    { st with dev_insert_send := true }.log [Event.write ['i']]
  else st

/-- The call `printf("r%04lx%s", strlen(response), response)` of lines 203 and 217. -/
def printf_response (response : CString) : List Char :=
  'r' :: printf_04lx response.length ++ response

/-- Lines 196-209 and 210-223: the call of the library for a request, the
frame written for its result, `free(response)`, `free(action)` and
`action = NULL`.  `call` is `u2fh_register` or `u2fh_authenticate` at this
iteration.  The library stores a response only when it succeeds: after a
failure `response` is what it was, and when that is a block already released
the second `free` of it has no defined behaviour. -/
def perform (env : Env) (call : CString → CString → u2fh_rc × CString)
    (ev : CString → CString → Event) (label : CString) (a : OP) (st : State) : Outcome :=
  match a.challenge, a.domain with
  | some challenge, some domain =>
    let res := call (cstr challenge) (cstr domain)
    let st1 := st.log [ev (cstr challenge) (cstr domain)]
    if res.1 ≠ U2FH_OK then
      match do_report_error env res.1 (some label) st1 with
      | some st2 =>
        if st2.response_freed then Outcome.undefined st2
        else Outcome.next { st2 with action := none }
      | none => Outcome.undefined st1
    else
      Outcome.next
        { st1.log [Event.write (printf_response res.2)] with
          action := none
          response_freed := true }
  | _, _ => Outcome.undefined st

/-- Lines 193-228: the dispatch of a pending action; `rc` is the result of
this iteration's discovery. -/
def dispatch (env : Env) (k : Nat) (rc : u2fh_rc) (st : State) : Outcome :=
  match st.action with
  | none => Outcome.next st
  | some a =>
    if rc = U2FH_OK ∨ a.op = 'e' then
      if a.op = 'e' then Outcome.done st
      else if a.op = 'r' then
        perform env (env.register k) Event.register "register".toList a st
      else if a.op = 's' then
        perform env (env.authenticate k) Event.authenticate "authenticate".toList a st
      else
        match do_report_error env U2FH_TRANSPORT_ERROR none st with
        | some st1 => Outcome.done st1
        | none => Outcome.undefined st
    else Outcome.next st

/-- One turn of `while (1)`, lines 175-228; `k` is its number. -/
def iteration (env : Env) (k : Nat) (st : State) : Outcome :=
  let rc := env.devs_discover k
  let st0 := st.log [Event.devs_discover]
  if rc ≠ U2FH_OK ∧ rc ≠ U2FH_NO_U2F_DEVICE then
    match do_report_error env rc (some "devs_discover".toList) st0 with
    | some st1 => Outcome.done st1
    | none => Outcome.undefined st0
  else
    match fetch env k st0 with
    | Outcome.next st1 => dispatch env k rc (notice rc st1)
    | o => o

/-- How far a run has come: still inside the loop, returned from `exit`, or
stopped at behaviour that is not defined. -/
inductive Run where
  | running (st : State)
  | exited (st : State)
  | undefined (st : State)

/-- The state held by a run. -/
def Run.state : Run → State
  | Run.running st => st
  | Run.exited st => st
  | Run.undefined st => st

/-- The label `done`: `u2fh_devs_done`, `u2fh_global_done`, `exit(exit_code)`. -/
def finish (st : State) : State :=
  st.log [Event.devs_done, Event.global_done, Event.exit EXIT_FAILURE]

/-- The loop `while (1)`, followed for at most `fuel` turns from turn `k`. -/
def loop (env : Env) : Nat → Nat → State → Run
  | 0, _, st => Run.running st
  | fuel + 1, k, st =>
    match iteration env k st with
    | Outcome.next st1 => loop env fuel (k + 1) st1
    | Outcome.done st1 => Run.exited (finish st1)
    | Outcome.undefined st1 => Run.undefined st1

/-- The function `main`, its loop followed for at most `fuel` turns. The alarm
signal, which ends the process from outside at any point, is not part of it. -/
def main (env : Env) (fuel : Nat) (stdin : Stream) : Run :=
  let st : State :=
    reset_quit_timer { action := none, dev_insert_send := false, stdin := stdin, trace := [] }
  if env.global_init ≠ U2FH_OK then
    match do_report_error env env.global_init (some "global_init".toList) st with
    | some st1 => Run.exited (st1.log [Event.exit 1])
    | none => Run.undefined st
  else if env.devs_init ≠ U2FH_OK then
    match do_report_error env env.devs_init (some "devs_init".toList) st with
    | some st1 => Run.exited (finish st1)
    | none => Run.undefined st
  else loop env fuel 0 st

/-- The bytes on standard output, from the events of a run. -/
def output : List Event → List Char
  | [] => []
  | Event.write bytes :: es => bytes ++ output es
  | _ :: es => output es

/-! ## Notions used by the statements -/

/-- The bytes a stream delivers before its first `read` of zero bytes. -/
def avail : Stream → List Char
  | [] => []
  | [] :: _ => []
  | (a :: c) :: rest => a :: c ++ avail rest

/-- A length field of exactly four hexadecimal digits, most significant first. -/
def hex4 (n : Nat) : List Char :=
  [hexChar (n / 4096), hexChar (n / 256 % 16), hexChar (n / 16 % 16), hexChar (n % 16)]

/-- The Register frame laid out in the header order the specification gives:
the length of the challenge, then the length of the domain. -/
def register_frame_spec (D C : List Char) : List Char :=
  'r' :: (hex4 C.length ++ (hex4 D.length ++ (D ++ C)))

/-- The Register frame laid out in the header order `read_action` reads: the
length of the domain, then the length of the challenge. -/
def register_frame (D C : List Char) : List Char :=
  'r' :: (hex4 D.length ++ (hex4 C.length ++ (D ++ C)))

/-- How many times the device-insert notice is written in a trace. -/
def notices (t : List Event) : Nat := t.count (Event.write ['i'])

/-- A step that neither touches the flag nor writes the notice. -/
def Quiet (st st1 : State) : Prop :=
  st1.dev_insert_send = st.dev_insert_send ∧ notices st1.trace = notices st.trace

/-- The flag is set as soon as one notice has been written, and no second one follows. -/
def NoticeInv (st : State) : Prop :=
  notices st.trace ≤ 1 ∧ (st.dev_insert_send = false → notices st.trace = 0)

/-- An environment for the examples: discovery finds a device, standard input
is readable, allocation succeeds, and the two library calls give fixed answers. -/
def example_env (reg auth : u2fh_rc × CString) : Env :=
  { global_init := U2FH_OK, devs_init := U2FH_OK, devs_discover := fun _ => U2FH_OK,
    poll := fun _ => true, malloc := fun _ => true,
    register := fun _ _ _ => reg, authenticate := fun _ _ _ => auth,
    strerror := fun _ => "error".toList,
    clobber := fun _ => { op := Char.ofNat 0, domain := none, challenge := none } }

/-- The state at the entry of the loop, for the examples. -/
def example_state (stdin : Stream) : State :=
  reset_quit_timer { action := none, dev_insert_send := false, stdin := stdin, trace := [] }

/-- The calls of the library for a request, in the order of a trace. -/
def calls : List Event → List Event
  | [] => []
  | Event.register c d :: es => Event.register c d :: calls es
  | Event.authenticate c d :: es => Event.authenticate c d :: calls es
  | _ :: es => calls es

/-- The call of the library that the dispatch makes for a request: `u2fh_register`
for the op `r` and `u2fh_authenticate` for the op `s`, on the challenge and the
domain. -/
def call_of (a : OP) : Event :=
  (if a.op = 'r' then Event.register else Event.authenticate)
    (cstr (a.challenge.getD [])) (cstr (a.domain.getD []))

/-- What `read_action` can have put into the slot: the sentinel, or a block with
the op `r` or `s` and its two strings. -/
def ActionOk (a : OP) : Prop :=
  a = eof_op ∨ ((a.op = 'r' ∨ a.op = 's') ∧ a.domain.isSome = true ∧ a.challenge.isSome = true)

/-- The slot of a state holds nothing, or what `read_action` can have put
there, or what the environment finds in a block that a negative length has
spoilt. -/
def SlotOk (env : Env) (st : State) : Prop :=
  ∀ a, st.action = some a →
    ActionOk a ∨ ∃ s, (read_action true true s).1 = Ret.clobbered ∧ a = env.clobber s

/-- The calls of the library that the dispatch makes for an action: the one
for a request, none for any other action. -/
def calls_of (a : OP) : List Event :=
  if a.op = 'r' ∨ a.op = 's' then [call_of a] else []

/-- The action in the slot, unless it is the sentinel. -/
def pending (st : State) : List OP :=
  match st.action with
  | some a => if a.op = 'e' then [] else [a]
  | none => []

/-- The actions that successive calls of `read_action` put into the slot from
a stream that is readable, with every block allocated: at most `n` of them, up
to the first one whose op is `e`. -/
def frames_on (env : Env) : Nat → Stream → List OP
  | 0, _ => []
  | n + 1, s =>
    match read_action true true s with
    | (Ret.ptr a, s1) => if a.op = 'e' then [] else a :: frames_on env n s1
    | (Ret.clobbered, s1) =>
      if (env.clobber s).op = 'e' then [] else env.clobber s :: frames_on env n s1
    | (Ret.null, _) => []

/-- The calls made so far, followed by those due for the action in the slot
and for the next `n` actions on standard input. -/
def schedule (env : Env) (n : Nat) (st : State) : List Event :=
  calls st.trace ++ (pending st ++ frames_on env n st.stdin).flatMap calls_of

/-- How many times the timer is set to `TIMEOUT` in a trace. -/
def resets (t : List Event) : Nat := t.count (Event.alarm TIMEOUT)

/-- How many times `read_action` is called in a trace. -/
def reads (t : List Event) : Nat := t.count Event.read_action

/-- Whether a discovery result sends the loop to `done` (line 176). -/
def fatal (rc : u2fh_rc) : Bool :=
  decide (rc ≠ U2FH_OK ∧ rc ≠ U2FH_NO_U2F_DEVICE)

/-- The calls made so far, followed by the one due for the request in the slot. -/
def due (st : State) : List Event :=
  calls st.trace ++ (pending st).flatMap calls_of

/-- The bytes of the frame for a request, in the header order `read_action`
reads: the op, the length of the domain, the length of the challenge, the
domain and the challenge. -/
def frame_bytes (a : OP) : List Char :=
  a.op :: (hex4 (a.domain.getD []).length ++ (hex4 (a.challenge.getD []).length ++
    (a.domain.getD [] ++ a.challenge.getD [])))

/-- A request that a frame can carry: the op is `r` or `s` and both strings
are there, each shorter than 65536 bytes. -/
def Request (a : OP) : Prop :=
  (a.op = 'r' ∨ a.op = 's') ∧ a.domain.isSome = true ∧ a.challenge.isSome = true ∧
    (a.domain.getD []).length < 65536 ∧ (a.challenge.getD []).length < 65536

/-! # Lemmas -/

/-! ## Reading from a stream -/

theorem avail_append (cs more : Stream) (h : ∀ c ∈ cs, c ≠ []) :
    avail (cs ++ more) = cs.flatten ++ avail more := by
  induction cs with
  | nil => simp
  | cons c cs ih =>
    have hc : c ≠ [] := h c (by simp)
    have ih1 := ih (fun x hx => h x (by simp [hx]))
    cases c with
    | nil => exact absurd rfl hc
    | cons a c => simp [avail, ih1]

theorem read_length_le (n : Nat) (s : Stream) : (read n s).1.length ≤ n := by
  cases s with
  | nil => simp [read]
  | cons c rest =>
    simp only [read]
    split
    · assumption
    · simp

theorem read_nil_iff (n : Nat) (hn : 0 < n) (s : Stream) :
    (read n s).1 = [] ↔ avail s = [] := by
  cases s with
  | nil => simp [read, avail]
  | cons c rest =>
    cases c with
    | nil => simp [read, avail]
    | cons a c =>
      simp only [read, avail]
      split
      · simp
      · simp; omega

theorem read_avail (n : Nat) (hn : 0 < n) (s : Stream) (h0 : (read n s).1 ≠ []) :
    (read n s).1 ++ avail (read n s).2 = avail s := by
  cases s with
  | nil => simp [read, avail]
  | cons c rest =>
    cases c with
    | nil => simp [read] at h0
    | cons a c =>
      clear h0
      simp only [read]
      split
      · simp [avail]
      · rename_i h
        simp only [List.length_cons, not_le] at h
        obtain ⟨m, rfl⟩ : ∃ m, n = m + 1 := ⟨n - 1, by omega⟩
        have hd : List.drop m c ≠ [] := by
          intro h0
          have := congrArg List.length h0
          simp at this
          omega
        cases hdc : List.drop m c with
        | nil => exact absurd hdc hd
        | cons b t =>
          simp only [List.take_succ_cons, List.drop_succ_cons, hdc, avail]
          simp only [List.cons_append, List.append_assoc, List.cons.injEq, true_and]
          rw [← List.cons_append, ← hdc, ← List.append_assoc, List.take_append_drop]

theorem read_n_bytes_loop_spec (fuel : Nat) : ∀ (len : Nat) (s : Stream), len ≤ fuel →
    (len ≤ (avail s).length →
      (read_n_bytes_loop fuel len s).1 = true ∧
      (read_n_bytes_loop fuel len s).2.1 = (avail s).take len ∧
      avail (read_n_bytes_loop fuel len s).2.2 = (avail s).drop len) ∧
    ((avail s).length < len → (read_n_bytes_loop fuel len s).1 = false) := by
  induction fuel with
  | zero =>
    intro len s h
    have : len = 0 := by omega
    subst this
    simp [read_n_bytes_loop]
  | succ fuel ih =>
    intro len s h
    by_cases hl : len > 0
    · have hlen := read_length_le len s
      have hnil := read_nil_iff len hl s
      by_cases h0 : (read len s).1 = []
      · have ha : avail s = [] := hnil.1 h0
        simp [read_n_bytes_loop, hl, h0, ha]
        omega
      · have hpos : 0 < (read len s).1.length := List.length_pos.2 h0
        have hne : (read len s).1.length ≠ 0 := by omega
        have hav := read_avail len hl s h0
        obtain ⟨ih1, ih2⟩ := ih (len - (read len s).1.length) (read len s).2 (by omega)
        have hlenav : (avail s).length = (read len s).1.length + (avail (read len s).2).length := by
          rw [← hav]; simp
        simp only [read_n_bytes_loop, hl, if_true, hne, if_false]
        constructor
        · intro hle
          obtain ⟨a1, a2, a3⟩ := ih1 (by omega)
          refine ⟨a1, ?_, ?_⟩
          · rw [a2, ← hav, List.take_append_eq_append_take, List.take_of_length_le hlen]
          · rw [a3, ← hav, List.drop_append_eq_append_drop, List.drop_of_length_le hlen]
            simp
        · intro hlt
          exact ih2 (by omega)
    · have : len = 0 := by omega
      subst this
      simp [read_n_bytes_loop]

/-- The loop needs no more than `len` turns: from `len` on, more fuel changes nothing. -/
theorem read_n_bytes_loop_fuel (fuel : Nat) : ∀ (len : Nat) (s : Stream), len ≤ fuel →
    read_n_bytes_loop fuel len s = read_n_bytes_loop len len s := by
  induction fuel using Nat.strong_induction_on with
  | _ fuel ih =>
    intro len s h
    cases fuel with
    | zero =>
      have : len = 0 := by omega
      subst this
      rfl
    | succ f =>
      cases len with
      | zero => simp [read_n_bytes_loop]
      | succ l =>
        have hl := read_length_le (l + 1) s
        simp only [read_n_bytes_loop]
        by_cases h0 : (read (l + 1) s).1.length = 0
        · simp [h0]
        · have e1 := ih f (by omega) (l + 1 - (read (l + 1) s).1.length) (read (l + 1) s).2
            (by omega)
          have e2 : read_n_bytes_loop l (l + 1 - (read (l + 1) s).1.length) (read (l + 1) s).2 =
              read_n_bytes_loop (l + 1 - (read (l + 1) s).1.length)
                (l + 1 - (read (l + 1) s).1.length) (read (l + 1) s).2 := by
            by_cases hlf : l = f
            · subst hlf; exact e1
            · exact ih l (by omega) _ _ (by omega)
          simp only [h0, if_false, e1, e2]

/-- The loop of the source, turn by turn: `read_n_bytes` with a positive `len`
does one `read`, returns 0 when that gives no byte, and goes on with the rest
otherwise. -/
theorem read_n_bytes_unfold (n : Nat) (s : Stream) (h : 0 < n) :
    read_n_bytes (n : Int) s =
      if (read n s).1.length = 0 then (false, [], (read n s).2)
      else ((read_n_bytes ((n - (read n s).1.length : Nat) : Int) (read n s).2).1,
        (read n s).1 ++ (read_n_bytes ((n - (read n s).1.length : Nat) : Int) (read n s).2).2.1,
        (read_n_bytes ((n - (read n s).1.length : Nat) : Int) (read n s).2).2.2) := by
  have hl := read_length_le n s
  obtain ⟨l, rfl⟩ : ∃ l, n = l + 1 := ⟨n - 1, by omega⟩
  simp only [read_n_bytes, Int.toNat_ofNat]
  by_cases h0 : (read (l + 1) s).1.length = 0
  · simp [read_n_bytes_loop, h0]
  · have e := read_n_bytes_loop_fuel l (l + 1 - (read (l + 1) s).1.length) (read (l + 1) s).2
      (by omega)
    simp only [read_n_bytes_loop, h0, if_false, e]
    simp

/-- With `n` bytes in front of the first zero read, `read_n_bytes` returns 1,
has stored exactly those bytes, and leaves the bytes after them. -/
theorem read_n_bytes_ok (len : Int) (n : Nat) (s : Stream) (e : len = (n : Int))
    (h : n ≤ (avail s).length) :
    (read_n_bytes len s).1 = true ∧ (read_n_bytes len s).2.1 = (avail s).take n ∧
      avail (read_n_bytes len s).2.2 = (avail s).drop n := by
  subst e
  simpa [read_n_bytes] using (read_n_bytes_loop_spec n n s (le_refl _)).1 h

/-- With fewer than `n` bytes in front of the first zero read, `read_n_bytes` returns 0. -/
theorem read_n_bytes_short (len : Int) (n : Nat) (s : Stream) (e : len = (n : Int))
    (h : (avail s).length < n) :
    (read_n_bytes len s).1 = false := by
  subst e
  simpa [read_n_bytes] using (read_n_bytes_loop_spec n n s (le_refl _)).2 h

/-! ## Hexadecimal fields -/

theorem xdigit_val_hexChar (d : Nat) (h : d < 16) : xdigit_val (hexChar d) = some d := by
  interval_cases d <;> decide

theorem isxdigit_hexChar (d : Nat) (h : d < 16) : isxdigit (hexChar d) = true := by
  simp [isxdigit, xdigit_val_hexChar d h]

theorem isxdigit_toNat (c : Char) (h : isxdigit c = true) :
    (48 ≤ c.toNat ∧ c.toNat ≤ 57) ∨ (97 ≤ c.toNat ∧ c.toNat ≤ 102) ∨
      (65 ≤ c.toNat ∧ c.toNat ≤ 70) := by
  unfold isxdigit xdigit_val at h
  by_cases h1 : 48 ≤ c.toNat ∧ c.toNat ≤ 57
  · exact Or.inl h1
  · by_cases h2 : 97 ≤ c.toNat ∧ c.toNat ≤ 102
    · exact Or.inr (Or.inl h2)
    · by_cases h3 : 65 ≤ c.toNat ∧ c.toNat ≤ 70
      · exact Or.inr (Or.inr h3)
      · simp [h1, h2, h3] at h

theorem isxdigit_not_space (c : Char) (h : isxdigit c = true) : isspace c = false := by
  have := isxdigit_toNat c h
  simp only [isspace, Bool.or_eq_false_iff, Bool.and_eq_false_iff, decide_eq_false_iff_not]
  omega

theorem isxdigit_ne (c x : Char) (h : isxdigit c = true) (hx : isxdigit x = false) : c ≠ x := by
  intro e
  subst e
  simp [h] at hx

/-- A field made of hexadecimal digits only is converted to its base-16 value. -/
theorem strtol16_xdigits (f : List Char) (h : ∀ c ∈ f, isxdigit c = true) :
    strtol16 f = hexval f := by
  cases f with
  | nil => simp [strtol16, strip_0x, hexval]
  | cons a t =>
    have ha : isxdigit a = true := h a (by simp)
    have hsp : List.dropWhile isspace (a :: t) = a :: t := by
      simp [List.dropWhile, isxdigit_not_space a ha]
    have hm : a ≠ '-' := isxdigit_ne a '-' ha (by decide)
    have hp : a ≠ '+' := isxdigit_ne a '+' ha (by decide)
    have hstrip : strip_0x (a :: t) = a :: t := by
      unfold strip_0x
      split
      · rename_i x hd tl heq
        have hx : isxdigit x = true := h x (by rw [heq]; simp)
        have h1 : x ≠ 'x' := isxdigit_ne x 'x' hx (by decide)
        have h2 : x ≠ 'X' := isxdigit_ne x 'X' hx (by decide)
        simp [h1, h2, heq]
      · rfl
    have htake : List.takeWhile isxdigit (a :: t) = a :: t := by
      rw [List.takeWhile_eq_self_iff]
      exact h
    unfold strtol16
    simp only [hsp]
    split
    · rename_i heq; simp at heq; exact absurd heq.1 hm
    · rename_i heq; simp at heq; exact absurd heq.1 hp
    · simp only [hstrip, htake]

theorem lxCore_succ (fuel n : Nat) (acc : List Char) :
    lxCore (fuel + 1) n acc =
      if n < 16 then hexChar n :: acc else lxCore fuel (n / 16) (hexChar (n % 16) :: acc) := rfl

theorem lxCore_small (n : Nat) (h : n < 65536) :
    lxCore 16 n [] =
      if n < 16 then [hexChar n]
      else if n < 256 then [hexChar (n / 16), hexChar (n % 16)]
      else if n < 4096 then [hexChar (n / 256), hexChar (n / 16 % 16), hexChar (n % 16)]
      else [hexChar (n / 4096), hexChar (n / 256 % 16), hexChar (n / 16 % 16), hexChar (n % 16)] := by
  rw [show (16 : Nat) = 12 + 1 + 1 + 1 + 1 from rfl]
  simp only [lxCore_succ]
  have a3 : n / 16 / 16 = n / 256 := by omega
  have a5 : n / 16 / 16 / 16 = n / 4096 := by omega
  by_cases h1 : n < 12 + 1 + 1 + 1 + 1
  · rw [if_pos h1, if_pos h1]
  · rw [if_neg h1, if_neg h1]
    by_cases h2 : n < 256
    · rw [if_pos (by omega), if_pos h2]
    · rw [if_neg (by omega), if_neg h2]
      by_cases h3 : n < 4096
      · rw [if_pos (by omega), if_pos h3, a3]
      · rw [if_neg (by omega), if_neg h3, if_pos (by omega), a5, a3]

/-- Below 16^4 the conversion `%04lx` writes exactly four digits. -/
theorem printf_04lx_small (n : Nat) (h : n < 65536) :
    printf_04lx n =
      [hexChar (n / 4096), hexChar (n / 256 % 16), hexChar (n / 16 % 16), hexChar (n % 16)] := by
  have hm : n % 2 ^ 64 = n := Nat.mod_eq_of_lt (by omega)
  have h0 : hexChar 0 = '0' := by decide
  unfold printf_04lx printf_lx
  rw [hm, lxCore_small n h]
  by_cases h1 : n < 16
  · have b1 : n / 4096 = 0 := by omega
    have b2 : n / 256 % 16 = 0 := by omega
    have b3 : n / 16 % 16 = 0 := by omega
    have b4 : n % 16 = n := by omega
    simp [h1, b1, b2, b3, b4, h0, List.replicate]
  · by_cases h2 : n < 256
    · have b1 : n / 4096 = 0 := by omega
      have b2 : n / 256 % 16 = 0 := by omega
      have b3 : n / 16 % 16 = n / 16 := by omega
      simp [h1, h2, b1, b2, b3, h0, List.replicate]
    · by_cases h3 : n < 4096
      · have b1 : n / 4096 = 0 := by omega
        have b2 : n / 256 % 16 = n / 256 := by omega
        simp [h1, h2, h3, b1, b2, h0, List.replicate]
      · simp [h1, h2, h3]

theorem hexval_four (a b c d : Char) :
    hexval [a, b, c, d] =
      (xdigit_val a).getD 0 * 4096 + (xdigit_val b).getD 0 * 256 + (xdigit_val c).getD 0 * 16
        + (xdigit_val d).getD 0 := by
  simp [hexval]
  ring

/-- Reading back a length written with `%04lx`. -/
theorem strtol16_printf_04lx (n : Nat) (h : n < 65536) : strtol16 (printf_04lx n) = n := by
  rw [printf_04lx_small n h, strtol16_xdigits, hexval_four]
  · have e1 := xdigit_val_hexChar (n / 4096) (by omega)
    have e2 := xdigit_val_hexChar (n / 256 % 16) (by omega)
    have e3 := xdigit_val_hexChar (n / 16 % 16) (by omega)
    have e4 := xdigit_val_hexChar (n % 16) (by omega)
    simp only [e1, e2, e3, e4, Option.getD_some]
    norm_cast
    omega
  · intro c hc
    simp only [List.mem_cons, List.mem_singleton, List.not_mem_nil, or_false] at hc
    rcases hc with rfl | rfl | rfl | rfl
    · exact isxdigit_hexChar _ (by omega)
    · exact isxdigit_hexChar _ (by omega)
    · exact isxdigit_hexChar _ (by omega)
    · exact isxdigit_hexChar _ (by omega)

/-! ## What `read_action` returns, from the bytes the stream delivers -/

theorem read_one (a : Char) (t : List Char) (s : Stream) (h : avail s = a :: t) :
    (read 1 s).1 = [a] ∧ avail (read 1 s).2 = t := by
  have hne : (read 1 s).1 ≠ [] := by
    intro h0
    have := (read_nil_iff 1 (by decide) s).1 h0
    simp [h] at this
  have hlen := read_length_le 1 s
  have hav := read_avail 1 (by decide) s hne
  cases hr : (read 1 s).1 with
  | nil => exact absurd hr hne
  | cons x xs =>
    rw [hr] at hlen hav
    have hx : xs = [] := by
      cases xs with
      | nil => rfl
      | cons y ys => simp at hlen
    subst hx
    rw [h] at hav
    simp at hav
    exact ⟨by rw [hav.1], hav.2⟩

/-- A stream that is not readable within the wait gives `NULL` and loses no byte. -/
theorem read_action_not_ready (m : Bool) (s : Stream) :
    read_action false m s = (Ret.null, s) := by
  simp [read_action]

/-- A complete frame in front of the first zero read, with non-negative
lengths and a successful allocation, gives the action that holds the two
strings, and leaves exactly the bytes after the frame. -/
theorem read_action_frame (op : Char) (hdr D C tail : List Char) (s : Stream)
    (hop : op = 'r' ∨ op = 's') (hh : hdr.length = 8)
    (hd : strtol16 (hdr.take 4) = (D.length : Int))
    (hc : strtol16 (hdr.drop 4) = (C.length : Int))
    (hs : avail s = op :: (hdr ++ (D ++ (C ++ tail)))) :
    (read_action true true s).1 = Ret.ptr { op := op, domain := some D, challenge := some C } ∧
      avail (read_action true true s).2 = tail := by
  obtain ⟨r1, r2⟩ := read_one op _ s hs
  obtain ⟨h1, h2, h3⟩ := read_n_bytes_ok 8 8 (read 1 s).2 rfl (by rw [r2]; simp; omega)
  rw [r2] at h2 h3
  have h2a : (read_n_bytes 8 (read 1 s).2).2.1 = hdr := by
    rw [h2, List.take_append_of_le_length (by omega), List.take_of_length_le (by omega)]
  have h3a : avail (read_n_bytes 8 (read 1 s).2).2.2 = D ++ (C ++ tail) := by
    rw [h3, List.drop_append_of_le_length (by omega), List.drop_of_length_le (by omega)]
    simp
  obtain ⟨d1, d2, d3⟩ := read_n_bytes_ok D.length D.length (read_n_bytes 8 (read 1 s).2).2.2 rfl
    (by rw [h3a]; simp)
  rw [h3a] at d2 d3
  simp only [List.take_left, List.drop_left] at d2 d3
  obtain ⟨c1, c2, c3⟩ := read_n_bytes_ok C.length C.length
    (read_n_bytes (D.length : Int) (read_n_bytes 8 (read 1 s).2).2.2).2.2 rfl (by rw [d3]; simp)
  rw [d3] at c2 c3
  simp only [List.take_left, List.drop_left] at c2 c3
  have hnn : ¬ ((D.length : Int) < 0 ∨ (C.length : Int) < 0) := by omega
  simp only [read_action, r1, hop, h1, h2a, hd, hc, d1, d2, c1, c2, hnn]
  simp [c3]

/-- A stream whose first `read` returns zero bytes gives the sentinel. -/
theorem read_action_closed (m : Bool) (s : Stream) (hs : avail s = []) :
    (read_action true m s).1 = Ret.ptr eof_op := by
  have h0 := (read_nil_iff 1 (by decide) s).2 hs
  simp [read_action, h0]

/-- An op byte other than `r` and `s` gives the sentinel. -/
theorem read_action_other_op (m : Bool) (op : Char) (t : List Char) (s : Stream)
    (hop : ¬ (op = 'r' ∨ op = 's')) (hs : avail s = op :: t) :
    (read_action true m s).1 = Ret.ptr eof_op ∧ avail (read_action true m s).2 = t := by
  obtain ⟨r1, r2⟩ := read_one op _ s hs
  simp [read_action, r1, hop, r2]

/-- A zero read inside the eight bytes of the header gives the sentinel. -/
theorem read_action_short_header (m : Bool) (op : Char) (body : List Char) (s : Stream)
    (hop : op = 'r' ∨ op = 's') (hb : body.length < 8) (hs : avail s = op :: body) :
    (read_action true m s).1 = Ret.ptr eof_op := by
  obtain ⟨r1, r2⟩ := read_one op _ s hs
  have h1 := read_n_bytes_short 8 8 (read 1 s).2 rfl (by rw [r2]; exact hb)
  simp [read_action, r1, hop, h1]

theorem read_n_bytes_toNat (len : Int) (s : Stream) :
    read_n_bytes len s = read_n_bytes ((len.toNat : Nat) : Int) s := by
  unfold read_n_bytes
  rw [Int.toNat_ofNat]

/-- A zero read inside the domain or the challenge gives the sentinel; a
length that is negative asks for no byte. -/
theorem read_action_short_body (m : Bool) (op : Char) (hdr data : List Char) (s : Stream)
    (hop : op = 'r' ∨ op = 's') (hh : hdr.length = 8)
    (hdata : data.length <
      (strtol16 (hdr.take 4)).toNat + (strtol16 (hdr.drop 4)).toNat)
    (hs : avail s = op :: (hdr ++ data)) :
    (read_action true m s).1 = Ret.ptr eof_op := by
  obtain ⟨r1, r2⟩ := read_one op _ s hs
  obtain ⟨h1, h2, h3⟩ := read_n_bytes_ok 8 8 (read 1 s).2 rfl (by rw [r2]; simp; omega)
  rw [r2] at h2 h3
  have h2a : (read_n_bytes 8 (read 1 s).2).2.1 = hdr := by
    rw [h2, List.take_append_of_le_length (by omega), List.take_of_length_le (by omega)]
  have h3a : avail (read_n_bytes 8 (read 1 s).2).2.2 = data := by
    rw [h3, List.drop_append_of_le_length (by omega), List.drop_of_length_le (by omega)]
    simp
  cases m with
  | false => simp [read_action, r1, hop, h1]
  | true =>
    by_cases hdl : data.length < (strtol16 (hdr.take 4)).toNat
    · have d1 : (read_n_bytes (strtol16 (hdr.take 4))
          (read_n_bytes 8 (read 1 s).2).2.2).1 = false := by
        rw [read_n_bytes_toNat]
        exact read_n_bytes_short _ _ _ rfl (by rw [h3a]; exact hdl)
      simp [read_action, r1, hop, h1, h2a, d1]
    · have d1 : (read_n_bytes (strtol16 (hdr.take 4))
            (read_n_bytes 8 (read 1 s).2).2.2).1 = true ∧
          avail (read_n_bytes (strtol16 (hdr.take 4))
            (read_n_bytes 8 (read 1 s).2).2.2).2.2 =
            data.drop (strtol16 (hdr.take 4)).toNat := by
        rw [read_n_bytes_toNat]
        obtain ⟨d1, _, d3⟩ := read_n_bytes_ok ((strtol16 (hdr.take 4)).toNat : Int) _
          (read_n_bytes 8 (read 1 s).2).2.2 rfl (by rw [h3a]; omega)
        rw [h3a] at d3
        exact ⟨d1, d3⟩
      have c1 : (read_n_bytes (strtol16 (hdr.drop 4))
          (read_n_bytes (strtol16 (hdr.take 4))
            (read_n_bytes 8 (read 1 s).2).2.2).2.2).1 = false := by
        rw [read_n_bytes_toNat]
        exact read_n_bytes_short _ _ _ rfl (by rw [d1.2]; simp; omega)
      simp [read_action, r1, hop, h1, h2a, d1.1, c1]

/-! ## The frames written -/

theorem hex4_length (n : Nat) : (hex4 n).length = 4 := rfl

theorem hex4_xdigits (n : Nat) (h : n < 65536) : ∀ c ∈ hex4 n, isxdigit c = true := by
  intro c hc
  simp only [hex4, List.mem_cons, List.mem_singleton, List.not_mem_nil, or_false] at hc
  rcases hc with rfl | rfl | rfl | rfl
  · exact isxdigit_hexChar _ (by omega)
  · exact isxdigit_hexChar _ (by omega)
  · exact isxdigit_hexChar _ (by omega)
  · exact isxdigit_hexChar _ (by omega)

theorem strtol16_hex4 (n : Nat) (h : n < 65536) : strtol16 (hex4 n) = (n : Int) := by
  have := strtol16_printf_04lx n h
  rwa [printf_04lx_small n h] at this

/-- The dispatch of a pending request whose library call succeeds. -/
theorem dispatch_success (env : Env) (k : Nat) (st : State) (a : OP)
    (domain challenge : List Char) (P : CString)
    (ha : st.action = some a) (hop : a.op = 'r' ∨ a.op = 's')
    (hd : a.domain = some domain) (hc : a.challenge = some challenge)
    (hcall : (if a.op = 'r' then env.register k else env.authenticate k)
      (cstr challenge) (cstr domain) = (U2FH_OK, P)) :
    dispatch env k U2FH_OK st =
        Outcome.next { st with
          action := none
          response_freed := true
          trace := st.trace ++
            [(if a.op = 'r' then Event.register else Event.authenticate)
                (cstr challenge) (cstr domain),
              Event.write (printf_response P)] } := by
  have hne : a.op ≠ 'e' := by
    rcases hop with h | h <;> rw [h] <;> decide
  rcases hop with h | h
  · simp only [h, if_true] at hcall
    simp [dispatch, perform, ha, h, hd, hc, hcall, State.log]
  · have hr : a.op ≠ 'r' := by rw [h]; decide
    simp only [hr, if_false] at hcall
    simp [dispatch, perform, ha, h, hd, hc, hcall, State.log]

theorem printf_d_code (rc : u2fh_rc) :
    printf_d (report_error_code rc) = [Char.ofNat (48 + (report_error_code rc).toNat)] := by
  cases rc <;> simp [report_error_code] <;> decide

theorem report_error_fits (strerror : u2fh_rc → CString) (rc : u2fh_rc) (label : Option CString)
    (h : (report_error_text strerror rc label).length ≤ 1023) :
    report_error strerror rc label =
      some ('e' :: (hex4 (report_error_text strerror rc label).length ++
        report_error_text strerror rc label)) := by
  have h1 : (report_error_text strerror rc label).length + 1 ≤ 1024 := by omega
  simp only [report_error, h1, if_true]
  rw [printf_04lx_small _ (by omega), hex4, List.cons_append]

theorem report_error_overflow (strerror : u2fh_rc → CString) (rc : u2fh_rc)
    (label : Option CString) (h : 1024 ≤ (report_error_text strerror rc label).length) :
    report_error strerror rc label = none := by
  have h1 : ¬ (report_error_text strerror rc label).length + 1 ≤ 1024 := by omega
  simp only [report_error, h1, if_false]

theorem report_error_text_length (strerror : u2fh_rc → CString) (rc : u2fh_rc) (l : CString) :
    l.length ≤ (report_error_text strerror rc (some l)).length := by
  simp only [report_error_text, List.length_append]
  omega

/-! ## The device-insert notice -/

theorem notices_append (t es : List Event) : notices (t ++ es) = notices t + notices es := by
  simp [notices, List.count_append]

theorem notices_write_ne (c : Char) (t : List Char) (h : c ≠ 'i') :
    notices [Event.write (c :: t)] = 0 := by
  simp [notices, List.count_cons, h]

theorem report_error_head (strerror : u2fh_rc → CString) (rc : u2fh_rc)
    (label : Option CString) (b : List Char) (h : report_error strerror rc label = some b) :
    ∃ t, b = 'e' :: t := by
  unfold report_error at h
  simp only at h
  split at h
  · simp only [Option.some.injEq] at h
    exact ⟨_, by rw [← h, List.cons_append]⟩
  · simp at h

theorem Quiet.refl (st : State) : Quiet st st := ⟨rfl, rfl⟩

theorem Quiet.trans {a b c : State} (h1 : Quiet a b) (h2 : Quiet b c) : Quiet a c :=
  ⟨h2.1.trans h1.1, h2.2.trans h1.2⟩

theorem quiet_log (st : State) (es : List Event) (h : notices es = 0) : Quiet st (st.log es) := by
  simp [Quiet, State.log, notices_append, h]

theorem quiet_do_report_error (env : Env) (rc : u2fh_rc) (label : Option CString)
    (st st1 : State) (h : do_report_error env rc label st = some st1) : Quiet st st1 := by
  unfold do_report_error at h
  split at h
  · rename_i bytes hb
    obtain ⟨t, rfl⟩ := report_error_head _ _ _ _ hb
    simp only [Option.some.injEq] at h
    rw [← h]
    exact quiet_log st _ (notices_write_ne 'e' t (by decide))
  · simp at h

theorem quiet_fetch (env : Env) (k : Nat) (st : State) : Quiet st (fetch env k st).state := by
  unfold fetch
  split
  · split
    · exact quiet_log { st with stdin := _ } _ (by decide)
    · exact (quiet_log { st with action := _, stdin := _ } [Event.read_action]
        (by decide)).trans (quiet_log _ [Event.alarm TIMEOUT] (by decide))
    · exact (quiet_log { st with action := _, stdin := _ } [Event.read_action]
        (by decide)).trans (quiet_log _ [Event.alarm TIMEOUT] (by decide))
  · exact quiet_log st _ (by decide)

theorem quiet_perform (env : Env) (call : CString → CString → u2fh_rc × CString)
    (ev : CString → CString → Event) (hev : ∀ x y, ev x y ≠ Event.write ['i'])
    (label : CString) (a : OP) (st : State) :
    Quiet st (perform env call ev label a st).state := by
  have hq : ∀ x y, Quiet st (st.log [ev x y]) := by
    intro x y
    apply quiet_log
    simp [notices, List.count_cons, hev x y]
  unfold perform
  split
  · rename_i challenge domain _ _
    simp only
    split
    · split
      · rename_i st2 h2
        split
        · exact (hq _ _).trans (quiet_do_report_error _ _ _ _ _ h2)
        · exact (hq _ _).trans ((quiet_do_report_error _ _ _ _ _ h2).trans ⟨rfl, rfl⟩)
      · exact hq _ _
    · exact (hq _ _).trans
        ((quiet_log _ [Event.write (printf_response _)]
          (notices_write_ne 'r' _ (by decide))).trans ⟨rfl, rfl⟩)
  · exact Quiet.refl st

theorem quiet_dispatch (env : Env) (k : Nat) (rc : u2fh_rc) (st : State) :
    Quiet st (dispatch env k rc st).state := by
  unfold dispatch
  split
  · exact Quiet.refl st
  · split
    · split
      · exact Quiet.refl st
      · split
        · exact quiet_perform env _ _ (by intro x y; simp) _ _ st
        · split
          · exact quiet_perform env _ _ (by intro x y; simp) _ _ st
          · split
            · rename_i st1 h1
              exact quiet_do_report_error _ _ _ _ _ h1
            · exact Quiet.refl st
    · exact Quiet.refl st

/-- What one turn of the loop does to the flag and to the number of notices:
nothing, or, with no device found and the flag unset, it sets the flag and
writes one notice. -/
theorem iteration_notice (env : Env) (k : Nat) (st : State) :
    Quiet st (iteration env k st).state ∨
      (env.devs_discover k = U2FH_NO_U2F_DEVICE ∧ st.dev_insert_send = false ∧
        (iteration env k st).state.dev_insert_send = true ∧
        notices (iteration env k st).state.trace = notices st.trace + 1) := by
  have q0 : Quiet st (st.log [Event.devs_discover]) := quiet_log st _ (by decide)
  unfold iteration
  simp only
  split
  · left
    split
    · rename_i st1 h1
      exact q0.trans (quiet_do_report_error _ _ _ _ _ h1)
    · exact q0
  · rename_i hrc
    have qf := quiet_fetch env k (st.log [Event.devs_discover])
    split
    · rename_i st1 hf
      rw [hf] at qf
      have q1 : Quiet st st1 := q0.trans qf
      have qd := quiet_dispatch env k (env.devs_discover k) (notice (env.devs_discover k) st1)
      by_cases hn : env.devs_discover k ≠ U2FH_OK ∧ st1.dev_insert_send = false
      · right
        have hno : env.devs_discover k = U2FH_NO_U2F_DEVICE := by
          by_contra hx
          exact hrc ⟨hn.1, hx⟩
        have hnot : notice (env.devs_discover k) st1 =
            { st1 with dev_insert_send := true }.log [Event.write ['i']] := by
          simp only [notice, hn, and_self, if_true, ne_eq, not_false_eq_true]
        rw [hnot] at qd ⊢
        refine ⟨hno, ?_, ?_, ?_⟩
        · rw [← q1.1]; exact hn.2
        · rw [qd.1]; rfl
        · rw [qd.2]
          simp only [State.log, notices_append]
          rw [q1.2]
          rfl
      · left
        have hnot : notice (env.devs_discover k) st1 = st1 := by
          simp only [notice, hn, if_false]
        rw [hnot] at qd ⊢
        exact q1.trans qd
    · rename_i o hne
      left
      exact q0.trans qf

theorem noticeInv_quiet {st st1 : State} (h : NoticeInv st) (q : Quiet st st1) :
    NoticeInv st1 := by
  unfold NoticeInv at *
  rw [q.1, q.2]
  exact h

theorem noticeInv_iteration (env : Env) (k : Nat) (st : State) (h : NoticeInv st) :
    NoticeInv (iteration env k st).state := by
  rcases iteration_notice env k st with q | ⟨_, h2, h3, h4⟩
  · exact noticeInv_quiet h q
  · have := h.2 h2
    unfold NoticeInv
    rw [h3, h4, this]
    simp

theorem noticeInv_finish (st : State) (h : NoticeInv st) : NoticeInv (finish st) :=
  noticeInv_quiet h (quiet_log st _ (by decide))

theorem noticeInv_loop (env : Env) (fuel : Nat) : ∀ (k : Nat) (st : State),
    NoticeInv st → NoticeInv (loop env fuel k st).state := by
  induction fuel with
  | zero => intro k st h; exact h
  | succ fuel ih =>
    intro k st h
    have hi := noticeInv_iteration env k st h
    unfold loop
    split
    · rename_i st1 e
      rw [e] at hi
      exact ih (k + 1) st1 hi
    · rename_i st1 e
      rw [e] at hi
      exact noticeInv_finish st1 hi
    · rename_i st1 e
      rw [e] at hi
      exact hi

theorem noticeInv_main (env : Env) (fuel : Nat) (stdin : Stream) :
    NoticeInv (main env fuel stdin).state := by
  have h0 : NoticeInv (reset_quit_timer
      { action := none, dev_insert_send := false, stdin := stdin, trace := [] }) :=
    ⟨by show notices [Event.alarm TIMEOUT] ≤ 1; decide,
      fun _ => by show notices [Event.alarm TIMEOUT] = 0; decide⟩
  unfold main
  simp only
  split
  · split
    · rename_i st1 e
      exact noticeInv_quiet (noticeInv_quiet h0 (quiet_do_report_error _ _ _ _ _ e))
        (quiet_log st1 _ (by decide))
    · exact h0
  · split
    · split
      · rename_i st1 e
        exact noticeInv_finish st1 (noticeInv_quiet h0 (quiet_do_report_error _ _ _ _ _ e))
      · exact h0
    · exact noticeInv_loop env fuel 0 _ h0

theorem notice_action (rc : u2fh_rc) (st : State) : (notice rc st).action = st.action := by
  unfold notice
  split <;> rfl

theorem notice_trace (rc : u2fh_rc) (st : State) :
    (notice rc st).trace = st.trace ++
      (if rc ≠ U2FH_OK ∧ st.dev_insert_send = false then [Event.write ['i']] else []) := by
  unfold notice
  split <;> simp [State.log]

/-- With the sentinel pending, the dispatch jumps to `done` and does nothing else. -/
theorem dispatch_eof (env : Env) (k : Nat) (rc : u2fh_rc) (st : State)
    (h : st.action = some eof_op) : dispatch env k rc st = Outcome.done st := by
  simp [dispatch, h, eof_op]

/-! ## No byte lost -/

theorem read_flatten (n : Nat) (s : Stream) :
    (read n s).1 ++ (read n s).2.flatten = s.flatten := by
  cases s with
  | nil => simp [read]
  | cons c rest =>
    simp only [read]
    split
    · simp
    · simp [← List.append_assoc, List.take_append_drop]

theorem read_n_bytes_loop_flatten (fuel : Nat) : ∀ (len : Nat) (s : Stream),
    (read_n_bytes_loop fuel len s).2.1 ++ (read_n_bytes_loop fuel len s).2.2.flatten =
      s.flatten := by
  induction fuel with
  | zero => intro len s; simp [read_n_bytes_loop]
  | succ fuel ih =>
    intro len s
    have hr := read_flatten len s
    simp only [read_n_bytes_loop]
    split
    · split
      · rename_i h0
        have : (read len s).1 = [] := List.length_eq_zero.1 h0
        rw [this] at hr
        simpa using hr
      · have := ih (len - (read len s).1.length) (read len s).2
        simp only [List.append_assoc, this, hr]
    · simp

/-- The bytes stored by `read_n_bytes` followed by those left on the stream are
the bytes of the stream. -/
theorem read_n_bytes_flatten (len : Int) (s : Stream) :
    (read_n_bytes len s).2.1 ++ (read_n_bytes len s).2.2.flatten = s.flatten :=
  read_n_bytes_loop_flatten _ _ s

/-- The stream that `read_action` leaves behind a complete frame. -/
theorem read_action_frame_rest (op : Char) (hdr D C tail : List Char) (s : Stream)
    (hop : op = 'r' ∨ op = 's') (hh : hdr.length = 8)
    (hd : strtol16 (hdr.take 4) = (D.length : Int))
    (hc : strtol16 (hdr.drop 4) = (C.length : Int))
    (hs : avail s = op :: (hdr ++ (D ++ (C ++ tail)))) :
    op :: (hdr ++ (D ++ C)) ++ (read_action true true s).2.flatten = s.flatten := by
  obtain ⟨r1, r2⟩ := read_one op _ s hs
  obtain ⟨h1, h2, h3⟩ := read_n_bytes_ok 8 8 (read 1 s).2 rfl (by rw [r2]; simp; omega)
  rw [r2] at h2 h3
  have h2a : (read_n_bytes 8 (read 1 s).2).2.1 = hdr := by
    rw [h2, List.take_append_of_le_length (by omega), List.take_of_length_le (by omega)]
  have h3a : avail (read_n_bytes 8 (read 1 s).2).2.2 = D ++ (C ++ tail) := by
    rw [h3, List.drop_append_of_le_length (by omega), List.drop_of_length_le (by omega)]
    simp
  obtain ⟨d1, d2, d3⟩ := read_n_bytes_ok D.length D.length (read_n_bytes 8 (read 1 s).2).2.2 rfl
    (by rw [h3a]; simp)
  rw [h3a] at d2 d3
  simp only [List.take_left, List.drop_left] at d2 d3
  obtain ⟨c1, c2, c3⟩ := read_n_bytes_ok C.length C.length
    (read_n_bytes (D.length : Int) (read_n_bytes 8 (read 1 s).2).2.2).2.2 rfl (by rw [d3]; simp)
  rw [d3] at c2
  simp only [List.take_left] at c2
  have hnn : ¬ ((D.length : Int) < 0 ∨ (C.length : Int) < 0) := by omega
  have f0 := read_flatten 1 s
  have f1 := read_n_bytes_flatten 8 (read 1 s).2
  have f2 := read_n_bytes_flatten (D.length : Int) (read_n_bytes 8 (read 1 s).2).2.2
  have f3 := read_n_bytes_flatten (C.length : Int)
    (read_n_bytes (D.length : Int) (read_n_bytes 8 (read 1 s).2).2.2).2.2
  rw [r1] at f0
  rw [h2a] at f1
  rw [d2] at f2
  rw [c2] at f3
  have hrest : (read_action true true s).2 =
      (read_n_bytes (C.length : Int)
        (read_n_bytes (D.length : Int) (read_n_bytes 8 (read 1 s).2).2.2).2.2).2.2 := by
    simp only [read_action, r1, hop, h1, h2a, hd, hc, d1, c1, hnn]
    simp
  rw [hrest, ← f0, ← f1, ← f2, ← f3]
  simp


theorem output_append (t es : List Event) : output (t ++ es) = output t ++ output es := by
  induction t with
  | nil => rfl
  | cons e t ih => cases e <;> simp [output, ih]

/-! ## One turn of the loop -/

theorem fatal_iff (rc : u2fh_rc) :
    fatal rc = true ↔ (rc ≠ U2FH_OK ∧ rc ≠ U2FH_NO_U2F_DEVICE) := by
  simp [fatal]

theorem fatal_false_iff (rc : u2fh_rc) :
    fatal rc = false ↔ (rc = U2FH_OK ∨ rc = U2FH_NO_U2F_DEVICE) := by
  cases rc <;> simp [fatal]

theorem do_report_error_fits (env : Env) (rc : u2fh_rc) (label : Option CString) (st : State)
    (hfit : (report_error_text env.strerror rc label).length ≤ 1023) :
    do_report_error env rc label st =
      some (st.log [Event.write ('e' :: (hex4 (report_error_text env.strerror rc label).length ++
        report_error_text env.strerror rc label))]) := by
  simp only [do_report_error, report_error_fits _ _ _ hfit]

/-- A turn whose discovery fails with an error that fits the buffer. -/
theorem iteration_fatal (env : Env) (k : Nat) (st : State)
    (hf : fatal (env.devs_discover k) = true)
    (hfit : (report_error_text env.strerror (env.devs_discover k)
      (some "devs_discover".toList)).length ≤ 1023) :
    iteration env k st =
      Outcome.done { st with
        trace := st.trace ++ [Event.devs_discover,
          Event.write ('e' :: (hex4 (report_error_text env.strerror (env.devs_discover k)
              (some "devs_discover".toList)).length ++
            report_error_text env.strerror (env.devs_discover k)
              (some "devs_discover".toList)))] } := by
  have h := (fatal_iff _).1 hf
  unfold iteration
  simp only []
  rw [if_pos h, do_report_error_fits env _ _ _ hfit]
  simp [State.log]

/-- A turn whose discovery does not fail: the slot is served, the notice is
written if it is due, and the action in the slot is dispatched. -/
theorem iteration_nonfatal (env : Env) (k : Nat) (st : State)
    (hf : fatal (env.devs_discover k) = false) :
    iteration env k st =
      match fetch env k (st.log [Event.devs_discover]) with
      | Outcome.next st1 => dispatch env k (env.devs_discover k) (notice (env.devs_discover k) st1)
      | o => o := by
  have h : ¬ (env.devs_discover k ≠ U2FH_OK ∧ env.devs_discover k ≠ U2FH_NO_U2F_DEVICE) := by
    rw [← fatal_iff, hf]; simp
  simp only [iteration, h, if_false]

/-- With an action in the slot the turn does not read: it sleeps. -/
theorem fetch_pending (env : Env) (k : Nat) (st : State) (a : OP) (ha : st.action = some a) :
    fetch env k st = Outcome.next (st.log [Event.sleep 1]) := by
  simp [fetch, ha]

/-- With the slot empty the turn calls `read_action` on standard input. -/
theorem fetch_empty (env : Env) (k : Nat) (st : State) (ha : st.action = none) :
    fetch env k st =
      match read_action (env.poll k) (env.malloc k) st.stdin with
      | (Ret.null, s) => Outcome.next ({ st with stdin := s }.log [Event.read_action])
      | (Ret.ptr a, s) =>
        Outcome.next
          (reset_quit_timer ({ st with action := some a, stdin := s }.log [Event.read_action]))
      | (Ret.clobbered, s) =>
        Outcome.next
          (reset_quit_timer
            ({ st with action := some (env.clobber st.stdin), stdin := s }.log
              [Event.read_action])) := by
  simp [fetch, ha]

/-- The turn in which `read_action` returns the sentinel ends at `done`, with
nothing but discovery, the read, the timer and possibly the notice in it. -/
theorem iteration_eof (env : Env) (k : Nat) (st : State)
    (ha : st.action = none) (hf : fatal (env.devs_discover k) = false)
    (hr : (read_action (env.poll k) (env.malloc k) st.stdin).1 = Ret.ptr eof_op) :
    ∃ st1 : State, iteration env k st = Outcome.done st1 ∧
      st1.trace = st.trace ++ [Event.devs_discover, Event.read_action, Event.alarm TIMEOUT] ++
        (if env.devs_discover k ≠ U2FH_OK ∧ st.dev_insert_send = false
          then [Event.write ['i']] else []) ∧
      ∀ fuel : Nat, loop env (fuel + 1) k st = Run.exited (finish st1) := by
  have e : read_action (env.poll k) (env.malloc k) st.stdin =
      (Ret.ptr eof_op, (read_action (env.poll k) (env.malloc k) st.stdin).2) := by
    rw [← hr]
  have hfetch : fetch env k (st.log [Event.devs_discover]) =
      Outcome.next (reset_quit_timer ({ st.log [Event.devs_discover] with
        action := some eof_op
        stdin := (read_action (env.poll k) (env.malloc k) st.stdin).2 }.log
          [Event.read_action])) := by
    rw [fetch_empty env k _ (by simpa [State.log] using ha)]
    simp only [State.log]
    rw [e]
  have hit : ∃ st1 : State, iteration env k st = Outcome.done st1 ∧
      st1.trace = st.trace ++ [Event.devs_discover, Event.read_action, Event.alarm TIMEOUT] ++
        (if env.devs_discover k ≠ U2FH_OK ∧ st.dev_insert_send = false
          then [Event.write ['i']] else []) := by
    rw [iteration_nonfatal env k st hf, hfetch]
    refine ⟨_, dispatch_eof env k (env.devs_discover k) _ ?_, ?_⟩
    · rw [notice_action]
      rfl
    · rw [notice_trace]
      simp [State.log, reset_quit_timer]
  obtain ⟨st1, h1, h2⟩ := hit
  exact ⟨st1, h1, h2, fun fuel => by simp [loop, h1]⟩

/-- The dispatch of a pending request whose library call fails with an error
that fits the buffer. -/
theorem dispatch_failure (env : Env) (k : Nat) (st : State) (a : OP)
    (domain challenge : List Char) (rc : u2fh_rc) (P : CString)
    (ha : st.action = some a) (hop : a.op = 'r' ∨ a.op = 's')
    (hd : a.domain = some domain) (hc : a.challenge = some challenge)
    (hcall : (if a.op = 'r' then env.register k else env.authenticate k)
      (cstr challenge) (cstr domain) = (rc, P))
    (hrc : rc ≠ U2FH_OK) (hfr : st.response_freed = false)
    (hfit : (report_error_text env.strerror rc
      (some (if a.op = 'r' then "register".toList else "authenticate".toList))).length ≤ 1023) :
    dispatch env k U2FH_OK st =
      Outcome.next { st with
        action := none
        trace := st.trace ++
          [(if a.op = 'r' then Event.register else Event.authenticate)
              (cstr challenge) (cstr domain),
            Event.write ('e' :: (hex4 (report_error_text env.strerror rc
                (some (if a.op = 'r' then "register".toList
                  else "authenticate".toList))).length ++
              report_error_text env.strerror rc
                (some (if a.op = 'r' then "register".toList
                  else "authenticate".toList))))] } := by
  have hs : ('s' : Char) ≠ 'e' := by decide
  have hr : ('r' : Char) ≠ 'e' := by decide
  have hsr : ('s' : Char) ≠ 'r' := by decide
  rcases hop with h | h
  · simp only [h, if_true] at hcall hfit
    have hp := do_report_error_fits env rc (some "register".toList)
      (st.log [Event.register (cstr challenge) (cstr domain)]) hfit
    simp only [State.log, ha, hfr] at hp
    simp only [dispatch, perform, ha, h, hd, hc, hcall, hrc, hr, hp, hfr, State.log, Bool.false_eq_true, true_or,
      if_true, if_false, ne_eq, not_false_eq_true, List.append_assoc, List.singleton_append]
  · simp only [h, hsr, if_false] at hcall hfit
    have hp := do_report_error_fits env rc (some "authenticate".toList)
      (st.log [Event.authenticate (cstr challenge) (cstr domain)]) hfit
    simp only [State.log, ha, hfr] at hp
    simp only [dispatch, perform, ha, h, hd, hc, hcall, hrc, hs, hsr, hp, hfr, State.log, Bool.false_eq_true, true_or,
      if_true, if_false, ne_eq, not_false_eq_true, List.append_assoc, List.singleton_append]

/-- The dispatch of a pending request whose library call fails after an
earlier request has succeeded: the error frame is written, and the block that
`response` still points to is released a second time. -/
theorem dispatch_failure_freed (env : Env) (k : Nat) (st : State) (a : OP)
    (domain challenge : List Char) (rc : u2fh_rc) (P : CString)
    (ha : st.action = some a) (hop : a.op = 'r' ∨ a.op = 's')
    (hd : a.domain = some domain) (hc : a.challenge = some challenge)
    (hcall : (if a.op = 'r' then env.register k else env.authenticate k)
      (cstr challenge) (cstr domain) = (rc, P))
    (hrc : rc ≠ U2FH_OK) (hfr : st.response_freed = true)
    (hfit : (report_error_text env.strerror rc
      (some (if a.op = 'r' then "register".toList else "authenticate".toList))).length ≤ 1023) :
    dispatch env k U2FH_OK st =
      Outcome.undefined { st with
        trace := st.trace ++
          [(if a.op = 'r' then Event.register else Event.authenticate)
              (cstr challenge) (cstr domain),
            Event.write ('e' :: (hex4 (report_error_text env.strerror rc
                (some (if a.op = 'r' then "register".toList
                  else "authenticate".toList))).length ++
              report_error_text env.strerror rc
                (some (if a.op = 'r' then "register".toList
                  else "authenticate".toList))))] } := by
  have hs : ('s' : Char) ≠ 'e' := by decide
  have hr : ('r' : Char) ≠ 'e' := by decide
  have hsr : ('s' : Char) ≠ 'r' := by decide
  rcases hop with h | h
  · simp only [h, if_true] at hcall hfit
    have hp := do_report_error_fits env rc (some "register".toList)
      (st.log [Event.register (cstr challenge) (cstr domain)]) hfit
    simp only [State.log, ha, hfr] at hp
    simp only [dispatch, perform, ha, h, hd, hc, hcall, hrc, hr, hp, hfr, State.log, true_or,
      if_true, if_false, ne_eq, not_false_eq_true, List.append_assoc, List.singleton_append]
  · simp only [h, hsr, if_false] at hcall hfit
    have hp := do_report_error_fits env rc (some "authenticate".toList)
      (st.log [Event.authenticate (cstr challenge) (cstr domain)]) hfit
    simp only [State.log, ha, hfr] at hp
    simp only [dispatch, perform, ha, h, hd, hc, hcall, hrc, hs, hsr, hp, hfr, State.log, true_or,
      if_true, if_false, ne_eq, not_false_eq_true, List.append_assoc, List.singleton_append]

/-- Without a device a request in the slot is left alone. -/
theorem dispatch_waits (env : Env) (k : Nat) (rc : u2fh_rc) (st : State) (a : OP)
    (ha : st.action = some a) (h : ¬ (rc = U2FH_OK ∨ a.op = 'e')) :
    dispatch env k rc st = Outcome.next st := by
  simp [dispatch, ha, h]


/-- When `malloc` gives no block, `read_action` returns the sentinel. -/
theorem read_action_no_memory (s : Stream) :
    (read_action true false s).1 = Ret.ptr eof_op := by
  unfold read_action
  simp only [Bool.not_true, Bool.false_eq_true, if_false, Bool.not_false, if_true]
  split
  · rfl
  · split
    · split <;> rfl
    · rfl

/-- The allocation is reached behind the op byte and the header: these nine
bytes are gone when `read_action` returns for want of a block. -/
theorem read_action_no_memory_rest (op : Char) (hdr rest : List Char) (s : Stream)
    (hop : op = 'r' ∨ op = 's') (hh : hdr.length = 8) (hs : avail s = op :: (hdr ++ rest)) :
    avail (read_action true false s).2 = rest := by
  obtain ⟨r1, r2⟩ := read_one op _ s hs
  obtain ⟨h1, _, h3⟩ := read_n_bytes_ok 8 8 (read 1 s).2 rfl (by rw [r2]; simp; omega)
  rw [r2] at h3
  have h3a : avail (read_n_bytes 8 (read 1 s).2).2.2 = rest := by
    rw [h3, List.drop_append_of_le_length (by omega), List.drop_of_length_le (by omega)]
    simp
  simp [read_action, r1, hop, h1, h3a]

/-- A turn that starts with an empty slot and whose discovery does not fail
calls `read_action` on standard input and dispatches what it returns. -/
theorem iteration_empty (env : Env) (k : Nat) (st : State) (ha : st.action = none)
    (hf : fatal (env.devs_discover k) = false) :
    iteration env k st =
      match read_action (env.poll k) (env.malloc k) st.stdin with
      | (Ret.null, s) =>
        Outcome.next (notice (env.devs_discover k)
          ({ st with stdin := s }.log [Event.devs_discover, Event.read_action]))
      | (Ret.ptr b, s) =>
        dispatch env k (env.devs_discover k) (notice (env.devs_discover k)
          (reset_quit_timer
            ({ st with action := some b, stdin := s }.log
              [Event.devs_discover, Event.read_action])))
      | (Ret.clobbered, s) =>
        dispatch env k (env.devs_discover k) (notice (env.devs_discover k)
          (reset_quit_timer
            ({ st with action := some (env.clobber st.stdin), stdin := s }.log
              [Event.devs_discover, Event.read_action]))) := by
  rw [iteration_nonfatal env k st hf, fetch_empty env k _ (by simpa [State.log] using ha)]
  simp only [State.log]
  rcases hr : read_action (env.poll k) (env.malloc k) st.stdin with ⟨r, s⟩
  cases r with
  | null =>
    simp only [List.append_assoc, List.singleton_append]
    rw [dispatch]
    simp [notice_action, ha]
  | ptr b => simp [reset_quit_timer, State.log]
  | clobbered => simp [reset_quit_timer, State.log]

/-- A turn that starts with an action in the slot and whose discovery does not
fail sleeps, writes the notice if it is due, and dispatches the action. -/
theorem iteration_pending (env : Env) (k : Nat) (st : State) (a : OP) (ha : st.action = some a)
    (hf : fatal (env.devs_discover k) = false) :
    iteration env k st =
      dispatch env k (env.devs_discover k) (notice (env.devs_discover k)
        (st.log [Event.devs_discover, Event.sleep 1])) := by
  rw [iteration_nonfatal env k st hf, fetch_pending env k _ a (by simpa [State.log] using ha)]
  simp [State.log]

theorem calls_append (t es : List Event) : calls (t ++ es) = calls t ++ calls es := by
  induction t with
  | nil => rfl
  | cons e t ih => cases e <;> simp [calls, ih]

theorem calls_notice (rc : u2fh_rc) (st : State) : calls (notice rc st).trace = calls st.trace := by
  rw [notice_trace, calls_append]
  split <;> simp [calls]

/-- A request that is dispatched leaves the slot. -/
theorem perform_ne (env : Env) (call : CString → CString → u2fh_rc × CString)
    (ev : CString → CString → Event) (label : CString) (b : OP) (st : State) (a : OP)
    (ha : st.action = some a) : perform env call ev label b st ≠ Outcome.next st := by
  have key : ∀ st2 : State, st2.action = none → Outcome.next st2 ≠ Outcome.next st := by
    intro st2 hn h
    have := congrArg (fun o => (Outcome.state o).action) h
    simp [Outcome.state, ha, hn] at this
  unfold perform
  split
  · simp only
    split
    · split
      · split
        · intro h; cases h
        · exact key _ rfl
      · intro h; cases h
    · exact key _ rfl
  · intro h; cases h

theorem do_report_error_some (env : Env) (rc : u2fh_rc) (label : Option CString)
    (st st2 : State) (h : do_report_error env rc label st = some st2) :
    ∃ bytes, st2 = st.log [Event.write bytes] := by
  unfold do_report_error at h
  split at h
  · rename_i bytes _
    simp only [Option.some.injEq] at h
    exact ⟨bytes, h.symm⟩
  · simp at h

/-- The dispatch of a request makes one call of the library, whatever comes of it. -/
theorem calls_perform (env : Env) (call : CString → CString → u2fh_rc × CString)
    (ev : CString → CString → Event) (hev : ∀ x y, calls [ev x y] = [ev x y])
    (label : CString) (a : OP) (st : State) (d c : List Char)
    (hd : a.domain = some d) (hc : a.challenge = some c) :
    calls (perform env call ev label a st).state.trace =
      calls st.trace ++ [ev (cstr c) (cstr d)] := by
  unfold perform
  rw [hd, hc]
  simp only
  have hw : ∀ x y bytes, calls [ev x y, Event.write bytes] = [ev x y] := by
    intro x y bytes
    have := calls_append [ev x y] [Event.write bytes]
    simpa [hev, calls] using this
  split
  · split
    · rename_i st2 h2
      obtain ⟨bytes, rfl⟩ := do_report_error_some _ _ _ _ _ h2
      split <;> simp [Outcome.state, State.log, calls_append, hw]
    · simp [Outcome.state, State.log, calls_append, hev]
  · simp [Outcome.state, State.log, calls_append, hw]

/-- With a device present, the dispatch of a request that `read_action` has
put into the slot makes exactly the call for it. -/
theorem calls_dispatch (env : Env) (k : Nat) (st : State) (a : OP) (ha : st.action = some a)
    (hok : ActionOk a) (hne : a.op ≠ 'e') :
    calls (dispatch env k U2FH_OK st).state.trace = calls st.trace ++ [call_of a] := by
  rcases hok with h | ⟨hop, hd, hc⟩
  · rw [h] at hne
    exact absurd rfl hne
  · obtain ⟨d, hd⟩ := Option.isSome_iff_exists.1 hd
    obtain ⟨c, hc⟩ := Option.isSome_iff_exists.1 hc
    have hs : ('s' : Char) ≠ 'r' := by decide
    rcases hop with h | h
    · have e : dispatch env k U2FH_OK st =
          perform env (env.register k) Event.register "register".toList a st := by
        simp [dispatch, ha, hne, h]
      rw [e, calls_perform env _ Event.register (fun x y => rfl) _ a st d c hd hc]
      simp [call_of, h, hd, hc]
    · have e : dispatch env k U2FH_OK st =
          perform env (env.authenticate k) Event.authenticate "authenticate".toList a st := by
        simp [dispatch, ha, hne, h]
      rw [e, calls_perform env _ Event.authenticate (fun x y => rfl) _ a st d c hd hc]
      simp [call_of, h, hd, hc]


/-! ## What a turn leaves alone -/

theorem perform_stdin (env : Env) (call : CString → CString → u2fh_rc × CString)
    (ev : CString → CString → Event) (label : CString) (a : OP) (st : State) :
    (perform env call ev label a st).state.stdin = st.stdin := by
  unfold perform
  split
  · simp only
    split
    · split
      · rename_i st2 h2
        obtain ⟨bytes, rfl⟩ := do_report_error_some _ _ _ _ _ h2
        split <;> rfl
      · rfl
    · rfl
  · rfl

/-- The dispatch reads nothing. -/
theorem dispatch_stdin (env : Env) (k : Nat) (rc : u2fh_rc) (st : State) :
    (dispatch env k rc st).state.stdin = st.stdin := by
  unfold dispatch
  split
  · rfl
  · split
    · split
      · rfl
      · split
        · exact perform_stdin _ _ _ _ _ _
        · split
          · exact perform_stdin _ _ _ _ _ _
          · split
            · rename_i st1 h1
              obtain ⟨bytes, rfl⟩ := do_report_error_some _ _ _ _ _ h1
              rfl
            · rfl
    · rfl

theorem notice_stdin (rc : u2fh_rc) (st : State) : (notice rc st).stdin = st.stdin := by
  unfold notice
  split <;> rfl

theorem count_log (e : Event) (st : State) (es : List Event) :
    (st.log es).trace.count e = st.trace.count e + es.count e := by
  simp [State.log, List.count_append]

theorem count_do_report_error (e : Event) (he : ∀ b, e ≠ Event.write b) (env : Env)
    (rc : u2fh_rc) (label : Option CString) (st st2 : State)
    (h : do_report_error env rc label st = some st2) :
    st2.trace.count e = st.trace.count e := by
  obtain ⟨bytes, rfl⟩ := do_report_error_some _ _ _ _ _ h
  rw [count_log]
  simp [List.count_cons, (he bytes).symm]

theorem count_perform (e : Event) (he : ∀ b, e ≠ Event.write b) (env : Env)
    (call : CString → CString → u2fh_rc × CString)
    (ev : CString → CString → Event) (hev : ∀ x y, e ≠ ev x y)
    (label : CString) (a : OP) (st : State) :
    (perform env call ev label a st).state.trace.count e = st.trace.count e := by
  have h1 : ∀ x y, (st.log [ev x y]).trace.count e = st.trace.count e := by
    intro x y
    rw [count_log]
    simp [List.count_cons, (hev x y).symm]
  unfold perform
  split
  · simp only
    split
    · split
      · rename_i st2 h2
        have h3 := count_do_report_error e he _ _ _ _ _ h2
        rw [h1] at h3
        split <;> simpa [Outcome.state] using h3
      · simp only [Outcome.state]
        rw [h1]
    · simp only [Outcome.state]
      rw [count_log, h1]
      simp [List.count_cons, (he _).symm]
  · rfl

/-- The dispatch adds calls of the library and frames to the trace, nothing else. -/
theorem count_dispatch (e : Event) (he : ∀ b, e ≠ Event.write b)
    (hr : ∀ x y, e ≠ Event.register x y) (ha : ∀ x y, e ≠ Event.authenticate x y)
    (env : Env) (k : Nat) (rc : u2fh_rc) (st : State) :
    (dispatch env k rc st).state.trace.count e = st.trace.count e := by
  unfold dispatch
  split
  · rfl
  · split
    · split
      · rfl
      · split
        · exact count_perform e he _ _ _ hr _ _ _
        · split
          · exact count_perform e he _ _ _ ha _ _ _
          · split
            · rename_i st1 h1
              exact count_do_report_error e he _ _ _ _ _ h1
            · rfl
    · rfl

theorem count_notice (e : Event) (he : ∀ b, e ≠ Event.write b) (rc : u2fh_rc) (st : State) :
    (notice rc st).trace.count e = st.trace.count e := by
  rw [notice_trace, List.count_append]
  split
  · simp [List.count_cons, (he _).symm]
  · simp

/-- A turn whose discovery fails adds discovery and at most a frame to the trace. -/
theorem count_iteration_fatal (e : Event) (he : ∀ b, e ≠ Event.write b)
    (hd : e ≠ Event.devs_discover) (env : Env) (k : Nat) (st : State)
    (hf : fatal (env.devs_discover k) = true) :
    (iteration env k st).state.trace.count e = st.trace.count e ∧
      (iteration env k st).state.stdin = st.stdin := by
  have h := (fatal_iff _).1 hf
  have h0 : (st.log [Event.devs_discover]).trace.count e = st.trace.count e := by
    rw [count_log]
    simp [List.count_cons, hd.symm]
  unfold iteration
  simp only []
  rw [if_pos h]
  split
  · rename_i st1 h1
    obtain ⟨bytes, hb⟩ := do_report_error_some _ _ _ _ _ h1
    exact ⟨by simp only [Outcome.state]; rw [count_do_report_error e he _ _ _ _ _ h1, h0],
      by rw [hb]; rfl⟩
  · exact ⟨h0, rfl⟩

/-- A turn that starts with an action in the slot adds neither a read nor a
reset of the timer to the trace and leaves standard input as it is. -/
theorem iteration_pending_frame (e : Event) (he : ∀ b, e ≠ Event.write b)
    (hr : ∀ x y, e ≠ Event.register x y) (hau : ∀ x y, e ≠ Event.authenticate x y)
    (hd : e ≠ Event.devs_discover) (hs : e ≠ Event.sleep 1)
    (env : Env) (k : Nat) (st : State) (a : OP) (ha : st.action = some a) :
    (iteration env k st).state.trace.count e = st.trace.count e ∧
      (iteration env k st).state.stdin = st.stdin := by
  cases hf : fatal (env.devs_discover k) with
  | true => exact count_iteration_fatal e he hd env k st hf
  | false =>
    rw [iteration_pending env k st a ha hf]
    constructor
    · rw [count_dispatch e he hr hau, count_notice e he, count_log]
      simp [List.count_cons, hd.symm, hs.symm]
    · rw [dispatch_stdin, notice_stdin]
      rfl


/-! ## The results of `read_action` and the slot -/

theorem read_action_ready_cases (s : Stream) :
    (read_action true true s).1 = Ret.ptr eof_op ∨
      (read_action true true s).1 = Ret.clobbered ∨
      ∃ op d c, (op = 'r' ∨ op = 's') ∧
        (read_action true true s).1 =
          Ret.ptr { op := op, domain := some d, challenge := some c } := by
  unfold read_action
  simp only [Bool.not_true, Bool.false_eq_true, if_false]
  split
  · left; rfl
  · rename_i op t _
    split
    · rename_i hop
      split
      · left; rfl
      · split
        · left; rfl
        · split
          · left; rfl
          · split
            · right; right; exact ⟨op, _, _, hop, rfl⟩
            · split
              · right; left; rfl
              · right; right; exact ⟨op, _, _, hop, rfl⟩
    · left; rfl

/-- The four kinds of result of `read_action`. -/
theorem read_action_cases (r m : Bool) (s : Stream) :
    (r = false ∧ read_action r m s = (Ret.null, s)) ∨
      (r = true ∧ (read_action r m s).1 = Ret.ptr eof_op) ∨
      (r = true ∧ m = true ∧ (read_action r m s).1 = Ret.clobbered) ∨
      (r = true ∧ m = true ∧ ∃ op d c, (op = 'r' ∨ op = 's') ∧
        (read_action r m s).1 = Ret.ptr { op := op, domain := some d, challenge := some c }) := by
  cases r with
  | false => left; exact ⟨rfl, by simp [read_action]⟩
  | true =>
    right
    cases m with
    | false => left; exact ⟨rfl, read_action_no_memory s⟩
    | true =>
      rcases read_action_ready_cases s with h | h | h
      · left; exact ⟨rfl, h⟩
      · right; left; exact ⟨rfl, rfl, h⟩
      · right; right; exact ⟨rfl, rfl, h⟩

/-- What `read_action` returns through a pointer is the sentinel or a block
with the op `r` or `s` and two strings. -/
theorem read_action_ok (r m : Bool) (s : Stream) (b : OP)
    (h : (read_action r m s).1 = Ret.ptr b) : ActionOk b := by
  rcases read_action_cases r m s with ⟨_, h1⟩ | ⟨_, h1⟩ | ⟨_, _, h1⟩ | ⟨_, _, op, d, c, hop, h1⟩
  · rw [h1] at h; cases h
  · rw [h1] at h
    injection h with h
    exact Or.inl h.symm
  · rw [h1] at h; cases h
  · rw [h1] at h
    injection h with h
    subst h
    exact Or.inr ⟨hop, rfl, rfl⟩

/-- A request comes only from a readable stream and an allocated block. -/
theorem read_action_request (r m : Bool) (s : Stream) (b : OP)
    (h : (read_action r m s).1 = Ret.ptr b) (hne : b.op ≠ 'e') : r = true ∧ m = true := by
  rcases read_action_cases r m s with ⟨_, h1⟩ | ⟨_, h1⟩ | ⟨_, _, h1⟩ | ⟨hr, hm, _⟩
  · rw [h1] at h; cases h
  · rw [h1] at h
    injection h with h
    subst h
    exact absurd rfl hne
  · rw [h1] at h; cases h
  · exact ⟨hr, hm⟩

/-- A call that returns `NULL` has read nothing. -/
theorem read_action_null (r m : Bool) (s : Stream) (h : (read_action r m s).1 = Ret.null) :
    (read_action r m s).2 = s := by
  rcases read_action_cases r m s with ⟨_, h1⟩ | ⟨_, h1⟩ | ⟨_, _, h1⟩ | ⟨_, _, op, d, c, _, h1⟩
  · rw [h1]
  · rw [h1] at h; cases h
  · rw [h1] at h; cases h
  · rw [h1] at h; cases h

theorem actionOk_op (a : OP) (h : ActionOk a) : a.op = 'r' ∨ a.op = 's' ∨ a.op = 'e' := by
  rcases h with h | ⟨h, _, _⟩
  · right; right; rw [h]; rfl
  · rcases h with h | h
    · exact Or.inl h
    · exact Or.inr (Or.inl h)

theorem frames_on_mono (env : Env) (n : Nat) :
    ∀ s : Stream, frames_on env n s <+: frames_on env (n + 1) s := by
  induction n with
  | zero => intro s; exact List.nil_prefix
  | succ n ih =>
    intro s
    rw [frames_on, frames_on]
    split
    · rename_i a s1 _
      split
      · exact List.prefix_refl _
      · exact (List.prefix_cons_inj a).2 (ih s1)
    · rename_i s1 _
      split
      · exact List.prefix_refl _
      · exact (List.prefix_cons_inj _).2 (ih s1)
    · exact List.prefix_refl _

/-- A request read from a readable stream with its block allocated is the
first of the requests on that stream. -/
theorem frames_on_succ (env : Env) (n : Nat) (s s1 : Stream) (b : OP)
    (h : read_action true true s = (Ret.ptr b, s1)) (hne : b.op ≠ 'e') :
    frames_on env (n + 1) s = b :: frames_on env n s1 := by
  rw [frames_on, h]
  simp [hne]

/-- So is the action found in a block that a negative length has spoilt. -/
theorem frames_on_clobbered (env : Env) (n : Nat) (s s1 : Stream)
    (h : read_action true true s = (Ret.clobbered, s1)) (hne : (env.clobber s).op ≠ 'e') :
    frames_on env (n + 1) s = env.clobber s :: frames_on env n s1 := by
  rw [frames_on, h]
  simp [hne]


/-! ## The order of the requests -/

theorem schedule_eq (env : Env) (n : Nat) (st : State) :
    schedule env n st = due st ++ (frames_on env n st.stdin).flatMap calls_of := by
  simp [schedule, due]

theorem due_of_none (st : State) (h : st.action = none) : due st = calls st.trace := by
  simp [due, pending, h]

theorem due_of_eof (st : State) (h : st.action = some eof_op) : due st = calls st.trace := by
  simp [due, pending, h, eof_op]

theorem due_of_request (st : State) (a : OP) (h : st.action = some a) (hne : a.op ≠ 'e') :
    due st = calls st.trace ++ calls_of a := by
  simp [due, pending, h, hne]

theorem calls_of_register (a : OP) (h : a.op = 'r') : calls_of a = [call_of a] := by
  simp [calls_of, h]

theorem calls_of_authenticate (a : OP) (h : a.op = 's') : calls_of a = [call_of a] := by
  simp [calls_of, h]

theorem calls_of_other (a : OP) (hr : a.op ≠ 'r') (hs : a.op ≠ 's') : calls_of a = [] := by
  simp [calls_of, hr, hs]

theorem pending_eq (st1 st : State) (h : st1.action = st.action) : pending st1 = pending st := by
  unfold pending
  rw [h]

theorem perform_next_slot (env : Env) (call : CString → CString → u2fh_rc × CString)
    (ev : CString → CString → Event) (label : CString) (a : OP) (st st1 : State)
    (h : perform env call ev label a st = Outcome.next st1) : st1.action = none := by
  unfold perform at h
  split at h
  · simp only at h
    split at h
    · split at h
      · split at h
        · cases h
        · injection h with h
          rw [← h]
      · cases h
    · injection h with h
      rw [← h]
  · cases h

/-- The dispatch of a request makes no call but the one for it, and when the
loop goes on the call has been made and the slot is empty. -/
theorem perform_due (env : Env) (call : CString → CString → u2fh_rc × CString)
    (ev : CString → CString → Event) (hev : ∀ x y, calls [ev x y] = [ev x y])
    (label : CString) (a : OP) (st : State)
    (hcall : ∀ d c, a.domain = some d → a.challenge = some c →
      ev (cstr c) (cstr d) = call_of a) :
    calls (perform env call ev label a st).state.trace <+: calls st.trace ++ [call_of a] ∧
      ∀ st1 : State, perform env call ev label a st = Outcome.next st1 →
        st1.action = none ∧ calls st1.trace = calls st.trace ++ [call_of a] := by
  cases hd : a.domain with
  | none =>
    have e : perform env call ev label a st = Outcome.undefined st := by
      unfold perform
      rw [hd]
      split
      · rename_i h1 h2
        cases h2
      · rfl
    rw [e]
    exact ⟨List.prefix_append _ _, fun st1 h => by cases h⟩
  | some d =>
    cases hc : a.challenge with
    | none =>
      have e : perform env call ev label a st = Outcome.undefined st := by
        unfold perform
        rw [hc]
      rw [e]
      exact ⟨List.prefix_append _ _, fun st1 h => by cases h⟩
    | some c =>
      have h1 := calls_perform env call ev hev label a st d c hd hc
      rw [hcall d c hd hc] at h1
      refine ⟨by rw [h1], fun st1 h => ?_⟩
      refine ⟨perform_next_slot _ _ _ _ _ _ _ h, ?_⟩
      rw [h] at h1
      exact h1

/-- The dispatch makes no call but the one that is due, and what it leaves in
the slot is still due. -/
theorem dispatch_due (env : Env) (k : Nat) (rc : u2fh_rc) (st : State) :
    calls (dispatch env k rc st).state.trace <+: due st ∧
      ∀ st1 : State, dispatch env k rc st = Outcome.next st1 →
        st1.stdin = st.stdin ∧ due st1 = due st := by
  cases hact : st.action with
  | none =>
    have e : dispatch env k rc st = Outcome.next st := by simp [dispatch, hact]
    rw [e]
    refine ⟨?_, fun st1 h => ?_⟩
    · rw [due_of_none st hact]
      exact List.prefix_refl _
    · injection h with h
      subst h
      exact ⟨rfl, rfl⟩
  | some a =>
    have hpre : calls st.trace <+: due st := List.prefix_append _ _
    by_cases he : a.op = 'e'
    · have e : dispatch env k rc st = Outcome.done st := by simp [dispatch, hact, he]
      rw [e]
      exact ⟨hpre, fun st1 h => by cases h⟩
    · by_cases hrc : rc = U2FH_OK
      · subst hrc
        have hs := dispatch_stdin env k U2FH_OK st
        rw [due_of_request st a hact he]
        by_cases hr : a.op = 'r'
        · have e : dispatch env k U2FH_OK st =
              perform env (env.register k) Event.register "register".toList a st := by
            simp [dispatch, hact, he, hr]
          rw [e] at hs ⊢
          rw [calls_of_register a hr]
          obtain ⟨p1, p2⟩ := perform_due env (env.register k) Event.register
            (fun x y => rfl) "register".toList a st
            (fun d c hd hc => by simp [call_of, hr, hd, hc])
          refine ⟨p1, fun st1 h => ?_⟩
          obtain ⟨q1, q2⟩ := p2 st1 h
          rw [h] at hs
          exact ⟨hs, by rw [due_of_none st1 q1, q2]⟩
        · by_cases hsop : a.op = 's'
          · have e : dispatch env k U2FH_OK st =
                perform env (env.authenticate k) Event.authenticate
                  "authenticate".toList a st := by
              simp [dispatch, hact, he, hr, hsop]
            rw [e] at hs ⊢
            rw [calls_of_authenticate a hsop]
            obtain ⟨p1, p2⟩ := perform_due env (env.authenticate k) Event.authenticate
              (fun x y => rfl) "authenticate".toList a st
              (fun d c hd hc => by simp [call_of, hr, hd, hc])
            refine ⟨p1, fun st1 h => ?_⟩
            obtain ⟨q1, q2⟩ := p2 st1 h
            rw [h] at hs
            exact ⟨hs, by rw [due_of_none st1 q1, q2]⟩
          · have e : dispatch env k U2FH_OK st =
                match do_report_error env U2FH_TRANSPORT_ERROR none st with
                | some st1 => Outcome.done st1
                | none => Outcome.undefined st := by
              simp [dispatch, hact, he, hr, hsop]
            rw [e]
            split
            · rename_i st2 h2
              obtain ⟨bytes, rfl⟩ := do_report_error_some _ _ _ _ _ h2
              refine ⟨?_, fun st1 h => by cases h⟩
              simp [Outcome.state, State.log, calls_append, calls]
            · exact ⟨List.prefix_append _ _, fun st1 h => by cases h⟩
      · have hw : ¬ (rc = U2FH_OK ∨ a.op = 'e') := by
          intro h
          rcases h with h | h
          · exact hrc h
          · exact he h
        rw [dispatch_waits env k rc st a hact hw]
        refine ⟨List.prefix_append _ _, fun st1 h => ?_⟩
        injection h with h
        subst h
        exact ⟨rfl, rfl⟩


theorem calls_iteration_fatal (env : Env) (k : Nat) (st : State)
    (hf : fatal (env.devs_discover k) = true) :
    calls (iteration env k st).state.trace = calls st.trace ∧
      ∀ st1 : State, iteration env k st ≠ Outcome.next st1 := by
  have h := (fatal_iff _).1 hf
  unfold iteration
  simp only []
  rw [if_pos h]
  split
  · rename_i st1 h1
    obtain ⟨bytes, rfl⟩ := do_report_error_some _ _ _ _ _ h1
    exact ⟨by simp [Outcome.state, State.log, calls_append, calls], fun _ h => by cases h⟩
  · exact ⟨by simp [Outcome.state, State.log, calls_append, calls], fun _ h => by cases h⟩

theorem map_call_of_mono (env : Env) (n : Nat) (s : Stream) (l : List Event) :
    l ++ (frames_on env n s).flatMap calls_of <+:
      l ++ (frames_on env (n + 1) s).flatMap calls_of := by
  obtain ⟨t, ht⟩ := frames_on_mono env n s
  rw [← ht, List.flatMap_append, ← List.append_assoc]
  exact List.prefix_append _ _

theorem schedule_mono (env : Env) (st : State) (n : Nat) :
    schedule env n st <+: schedule env (n + 1) st := by
  rw [schedule_eq, schedule_eq]
  exact map_call_of_mono env n _ _

theorem schedule_mono_le (env : Env) (st : State) (m n : Nat) (h : m ≤ n) :
    schedule env m st <+: schedule env n st := by
  induction n with
  | zero =>
    have e : m = 0 := by omega
    subst e
    exact List.prefix_refl _
  | succ n ih =>
    by_cases e : m = n + 1
    · subst e
      exact List.prefix_refl _
    · exact (ih (by omega)).trans (schedule_mono env st n)

/-- The dispatch of an action that this turn has read: the calls made are on
the schedule, and when the loop goes on the schedule has moved by this one
action. -/
theorem dispatch_read (env : Env) (k : Nat) (rc : u2fh_rc) (st st0 : State) (a : OP)
    (s : Stream) (hact : st0.action = some a) (hs : st0.stdin = s)
    (hc : calls st0.trace = calls st.trace) (hn : st.action = none)
    (hfr : a.op ≠ 'e' → ∀ n, frames_on env (n + 1) st.stdin = a :: frames_on env n s) :
    calls (dispatch env k rc st0).state.trace <+: schedule env 1 st ∧
      ∀ st1 : State, dispatch env k rc st0 = Outcome.next st1 →
        ∀ n, schedule env n st1 = schedule env (n + 1) st := by
  obtain ⟨d1, d2⟩ := dispatch_due env k rc st0
  by_cases he : a.op = 'e'
  · have e : dispatch env k rc st0 = Outcome.done st0 := by simp [dispatch, hact, he]
    rw [e]
    refine ⟨?_, fun st1 h => by cases h⟩
    simp only [Outcome.state]
    rw [hc, schedule]
    exact List.prefix_append _ _
  · have hsch : ∀ n, schedule env (n + 1) st =
        calls st.trace ++ calls_of a ++ (frames_on env n s).flatMap calls_of := by
      intro n
      rw [schedule_eq, due_of_none st hn, hfr he n]
      simp
    rw [due_of_request st0 a hact he, hc] at d1
    refine ⟨?_, fun st1 h n => ?_⟩
    · rw [hsch 0]
      exact d1.trans (List.prefix_append _ _)
    · obtain ⟨e2, e3⟩ := d2 st1 h
      rw [schedule_eq, e3, e2, hs, due_of_request st0 a hact he, hc, hsch n]

/-- One turn of the loop makes no call but those on the schedule, in their
order; when the loop goes on, the schedule is what it was, or it has moved by
the one action that the turn has read. -/
theorem iteration_schedule (env : Env) (k : Nat) (st : State) :
    calls (iteration env k st).state.trace <+: schedule env 1 st ∧
      ∀ st1 : State, iteration env k st = Outcome.next st1 →
        (∀ n, schedule env n st1 = schedule env n st) ∨
          (∀ n, schedule env n st1 = schedule env (n + 1) st) := by
  cases hf : fatal (env.devs_discover k) with
  | true =>
    obtain ⟨h1, h2⟩ := calls_iteration_fatal env k st hf
    refine ⟨?_, fun st1 h => absurd h (h2 st1)⟩
    rw [h1, schedule]
    exact List.prefix_append _ _
  | false =>
    cases hact : st.action with
    | some a =>
      have hstn : (notice (env.devs_discover k)
          (st.log [Event.devs_discover, Event.sleep 1])).action = some a := by
        rw [notice_action]; exact hact
      have hdue : due (notice (env.devs_discover k)
          (st.log [Event.devs_discover, Event.sleep 1])) = due st := by
        unfold due
        rw [pending_eq _ st (hstn.trans hact.symm), calls_notice]
        simp [State.log, calls_append, calls]
      obtain ⟨d1, d2⟩ := dispatch_due env k (env.devs_discover k)
        (notice (env.devs_discover k) (st.log [Event.devs_discover, Event.sleep 1]))
      rw [iteration_pending env k st a hact hf]
      rw [hdue] at d1
      refine ⟨?_, fun st1 h => ?_⟩
      · rw [schedule_eq]
        exact d1.trans (List.prefix_append _ _)
      · obtain ⟨e2, e3⟩ := d2 st1 h
        left
        intro n
        rw [schedule_eq, schedule_eq, e3, hdue, e2, notice_stdin]
        rfl
    | none =>
      rw [iteration_empty env k st hact hf]
      rcases hres : read_action (env.poll k) (env.malloc k) st.stdin with ⟨r, s⟩
      have hres1 : (read_action (env.poll k) (env.malloc k) st.stdin).1 = r := by rw [hres]
      have hres2 : (read_action (env.poll k) (env.malloc k) st.stdin).2 = s := by rw [hres]
      cases r with
      | null =>
        have hs : s = st.stdin := by
          rw [← hres2]; exact read_action_null _ _ _ hres1
        subst hs
        simp only [Outcome.state]
        have hc : calls (notice (env.devs_discover k)
            ({ st with stdin := st.stdin }.log
              [Event.devs_discover, Event.read_action])).trace = calls st.trace := by
          rw [calls_notice]
          simp [State.log, calls_append, calls]
        refine ⟨?_, fun st1 h => ?_⟩
        · rw [hc, schedule]
          exact List.prefix_append _ _
        · injection h with h
          subst h
          have hn : (notice (env.devs_discover k)
              ({ st with stdin := st.stdin }.log
                [Event.devs_discover, Event.read_action])).action = none := by
            rw [notice_action]; exact hact
          left
          intro n
          rw [schedule_eq, schedule_eq, due_of_none _ hn, hc, due_of_none st hact, notice_stdin]
          rfl
      | clobbered =>
        simp only []
        have hpm : env.poll k = true ∧ env.malloc k = true := by
          rcases read_action_cases (env.poll k) (env.malloc k) st.stdin with
            ⟨_, h1⟩ | ⟨_, h1⟩ | ⟨hp, hm, _⟩ | ⟨hp, hm, _⟩
          · rw [h1] at hres1; cases hres1
          · rw [h1] at hres1; cases hres1
          · exact ⟨hp, hm⟩
          · exact ⟨hp, hm⟩
        rw [hpm.1, hpm.2] at hres
        obtain ⟨p1, p2⟩ := dispatch_read env k (env.devs_discover k) st
          (notice (env.devs_discover k) (reset_quit_timer
            ({ st with action := some (env.clobber st.stdin), stdin := s }.log
              [Event.devs_discover, Event.read_action])))
          (env.clobber st.stdin) s (by rw [notice_action]; rfl) (by rw [notice_stdin]; rfl)
          (by rw [calls_notice]; simp [reset_quit_timer, State.log, calls_append, calls])
          hact (fun he n => frames_on_clobbered env n st.stdin s hres he)
        exact ⟨p1, fun st1 h => Or.inr (p2 st1 h)⟩
      | ptr b =>
        simp only []
        have hfr : b.op ≠ 'e' → ∀ n, frames_on env (n + 1) st.stdin = b :: frames_on env n s := by
          intro he n
          obtain ⟨hp, hm⟩ := read_action_request _ _ _ b hres1 he
          rw [hp, hm] at hres
          exact frames_on_succ env n st.stdin s b hres he
        obtain ⟨p1, p2⟩ := dispatch_read env k (env.devs_discover k) st
          (notice (env.devs_discover k) (reset_quit_timer
            ({ st with action := some b, stdin := s }.log
              [Event.devs_discover, Event.read_action])))
          b s (by rw [notice_action]; rfl) (by rw [notice_stdin]; rfl)
          (by rw [calls_notice]; simp [reset_quit_timer, State.log, calls_append, calls])
          hact hfr
        exact ⟨p1, fun st1 h => Or.inr (p2 st1 h)⟩

theorem calls_finish (st : State) : calls (finish st).trace = calls st.trace := by
  simp [finish, State.log, calls_append, calls]

/-- In a run of the loop the calls made are on the schedule of the state it
starts from, in their order; while it runs, the calls made, the request in the
slot and the requests still on standard input are that schedule, moved by the
number of actions read. -/
theorem loop_schedule (env : Env) (fuel : Nat) : ∀ (k : Nat) (st : State),
    calls (loop env fuel k st).state.trace <+: schedule env fuel st ∧
      ∀ st1 : State, loop env fuel k st = Run.running st1 →
        ∃ j, j ≤ fuel ∧ ∀ n, schedule env n st1 = schedule env (n + j) st := by
  induction fuel with
  | zero =>
    intro k st
    refine ⟨?_, fun st1 h => ?_⟩
    · simp only [loop, Run.state, schedule]
      exact List.prefix_append _ _
    · simp only [loop] at h
      injection h with h
      subst h
      exact ⟨0, Nat.le_refl _, fun n => rfl⟩
  | succ fuel ih =>
    intro k st
    obtain ⟨i1, i2⟩ := iteration_schedule env k st
    rw [loop]
    cases hit : iteration env k st with
    | next st1 =>
      simp only []
      obtain ⟨l1, l2⟩ := ih (k + 1) st1
      have hle : schedule env fuel st1 <+: schedule env (fuel + 1) st := by
        rcases i2 st1 hit with h | h
        · rw [h fuel]
          exact schedule_mono env st fuel
        · rw [h fuel]
      refine ⟨l1.trans hle, fun st2 h2 => ?_⟩
      obtain ⟨j, hj, hs⟩ := l2 st2 h2
      rcases i2 st1 hit with h | h
      · exact ⟨j, by omega, fun n => by rw [hs n, h (n + j)]⟩
      · exact ⟨j + 1, by omega, fun n => by rw [hs n, h (n + j)]; rfl⟩
    | done st1 =>
      simp only []
      rw [hit] at i1
      refine ⟨?_, fun st2 h2 => by cases h2⟩
      simp only [Run.state]
      rw [calls_finish]
      exact i1.trans (schedule_mono_le env st 1 (fuel + 1) (by omega))
    | undefined st1 =>
      simp only []
      rw [hit] at i1
      refine ⟨?_, fun st2 h2 => by cases h2⟩
      exact i1.trans (schedule_mono_le env st 1 (fuel + 1) (by omega))

/-- The calls of a run of `main` are those for the first requests on standard
input, in their order; while the loop runs, the calls made, the request in the
slot and the requests still on standard input make up the requests of the
input from its start. -/
theorem main_schedule (env : Env) (fuel : Nat) (stdin : Stream) :
    calls (main env fuel stdin).state.trace <+:
      (frames_on env fuel stdin).flatMap calls_of ∧
      ∀ st : State, main env fuel stdin = Run.running st →
        ∃ j, j ≤ fuel ∧
          ∀ n, schedule env n st = (frames_on env (n + j) stdin).flatMap calls_of := by
  have hsch : ∀ n, schedule env n
      (reset_quit_timer
        { action := none, dev_insert_send := false, stdin := stdin, trace := [] }) =
      (frames_on env n stdin).flatMap calls_of := by
    intro n
    simp [schedule, reset_quit_timer, State.log, calls, pending]
  unfold main
  simp only []
  split
  · split
    · rename_i st1 h1
      obtain ⟨bytes, rfl⟩ := do_report_error_some _ _ _ _ _ h1
      refine ⟨?_, fun st h => by cases h⟩
      simp [Run.state, reset_quit_timer, State.log, calls]
    · refine ⟨?_, fun st h => by cases h⟩
      simp [Run.state, reset_quit_timer, State.log, calls]
  · split
    · split
      · rename_i st1 h1
        obtain ⟨bytes, rfl⟩ := do_report_error_some _ _ _ _ _ h1
        refine ⟨?_, fun st h => by cases h⟩
        simp [Run.state, finish, reset_quit_timer, State.log, calls]
      · refine ⟨?_, fun st h => by cases h⟩
        simp [Run.state, reset_quit_timer, State.log, calls]
    · obtain ⟨l1, l2⟩ := loop_schedule env fuel 0
        (reset_quit_timer
          { action := none, dev_insert_send := false, stdin := stdin, trace := [] })
      rw [hsch fuel] at l1
      refine ⟨l1, fun st h => ?_⟩
      obtain ⟨j, hj, hs⟩ := l2 st h
      exact ⟨j, hj, fun n => by rw [hs n, hsch (n + j)]⟩


theorem notice_ok (st : State) : notice U2FH_OK st = st := by
  simp [notice]

theorem calls_call_of (a : OP) : calls [call_of a] = [call_of a] := by
  unfold call_of
  split <;> rfl

/-- With a device present, standard input readable, memory at hand and a
library that succeeds, the loop serves every request of an input made of
frames, one per turn and in their order, and then goes to `done`. -/
theorem loop_serves (env : Env)
    (hdev : ∀ k, env.devs_discover k = U2FH_OK) (hpoll : ∀ k, env.poll k = true)
    (hmem : ∀ k, env.malloc k = true)
    (hreg : ∀ k c d, (env.register k c d).1 = U2FH_OK)
    (hauth : ∀ k c d, (env.authenticate k c d).1 = U2FH_OK) :
    ∀ (reqs : List OP) (k : Nat) (st : State), (∀ a ∈ reqs, Request a) →
      st.action = none → avail st.stdin = (reqs.map frame_bytes).flatten →
      ∃ st1 : State, loop env (reqs.length + 1) k st = Run.exited st1 ∧
        calls st1.trace = calls st.trace ++ reqs.map call_of := by
  intro reqs
  induction reqs with
  | nil =>
    intro k st _ ha hs
    have hf : fatal (env.devs_discover k) = false := by rw [hdev]; decide
    have hr : (read_action (env.poll k) (env.malloc k) st.stdin).1 = Ret.ptr eof_op := by
      rw [hpoll]
      exact read_action_closed _ _ (by simpa using hs)
    obtain ⟨st1, h1, h2, h3⟩ := iteration_eof env k st ha hf hr
    refine ⟨finish st1, h3 0, ?_⟩
    rw [calls_finish, h2]
    simp [calls_append, calls, hdev]
  | cons a rest ih =>
    intro k st hreq ha hs
    obtain ⟨hop, hdS, hcS, hdl, hcl⟩ := hreq a (List.mem_cons_self _ _)
    obtain ⟨D, hD⟩ := Option.isSome_iff_exists.1 hdS
    obtain ⟨C, hC⟩ := Option.isSome_iff_exists.1 hcS
    rw [hD] at hdl
    rw [hC] at hcl
    simp only [Option.getD_some] at hdl hcl
    have hf : fatal (env.devs_discover k) = false := by rw [hdev]; decide
    have hs1 : avail st.stdin = a.op :: (hex4 D.length ++ hex4 C.length ++
        (D ++ (C ++ (rest.map frame_bytes).flatten))) := by
      rw [hs]
      simp [frame_bytes, hD, hC]
    obtain ⟨r1, r2⟩ := read_action_frame a.op (hex4 D.length ++ hex4 C.length) D C _ st.stdin
      hop (by simp [hex4_length])
      (by rw [List.take_left' (hex4_length _), strtol16_hex4 _ hdl])
      (by rw [List.drop_left' (hex4_length _), strtol16_hex4 _ hcl]) hs1
    have ea : ({ op := a.op, domain := some D, challenge := some C } : OP) = a := by
      cases a
      simp_all
    rw [ea] at r1
    have e : read_action true true st.stdin = (Ret.ptr a, (read_action true true st.stdin).2) :=
      Prod.ext r1 rfl
    have hcall : (if a.op = 'r' then env.register k else env.authenticate k)
        (cstr C) (cstr D) =
        (U2FH_OK, ((if a.op = 'r' then env.register k else env.authenticate k)
          (cstr C) (cstr D)).2) := by
      split
      · exact Prod.ext (hreg _ _ _) rfl
      · exact Prod.ext (hauth _ _ _) rfl
    have hev : (if a.op = 'r' then Event.register else Event.authenticate) (cstr C) (cstr D) =
        call_of a := by
      simp [call_of, hD, hC]
    have hit := iteration_empty env k st ha hf
    rw [hpoll, hmem, e] at hit
    simp only [] at hit
    rw [hdev, notice_ok, dispatch_success env k _ a D C _ rfl hop hD hC hcall, hev] at hit
    have key : ∀ st2 : State, st2.action = none →
        avail st2.stdin = (rest.map frame_bytes).flatten →
        calls st2.trace = calls st.trace ++ [call_of a] →
        ∃ st1 : State, loop env (rest.length + 1) (k + 1) st2 = Run.exited st1 ∧
          calls st1.trace = calls st.trace ++ (a :: rest).map call_of := by
      intro st2 h1 h2 h3
      obtain ⟨st1, l1, l2⟩ := ih (k + 1) st2 (fun b hb => hreq b (List.mem_cons_of_mem _ hb)) h1 h2
      exact ⟨st1, l1, by rw [l2, h3]; simp⟩
    rw [List.length_cons, loop, hit]
    simp only []
    apply key
    · rfl
    · exact r2
    · simp only [reset_quit_timer, State.log, calls_append, calls, List.append_nil]
      have hw : ∀ b, calls [call_of a, Event.write b] = [call_of a] := by
        intro b
        have h := calls_append [call_of a] [Event.write b]
        simpa [calls_call_of, calls] using h
      rw [hw]


/-- A turn that reads a block spoilt by a negative length, with a device
present: when the op found in the block is none of `e`, `r` and `s`, the last
branch of the dispatch writes the frame of a transport error and jumps to
`done`. -/
theorem iteration_last_branch (env : Env) (k : Nat) (st : State) (ha : st.action = none)
    (hrc : env.devs_discover k = U2FH_OK)
    (hr : (read_action (env.poll k) (env.malloc k) st.stdin).1 = Ret.clobbered)
    (he : (env.clobber st.stdin).op ≠ 'e') (hor : (env.clobber st.stdin).op ≠ 'r')
    (hos : (env.clobber st.stdin).op ≠ 's') :
    iteration env k st =
      Outcome.done { st with
        action := some (env.clobber st.stdin)
        stdin := (read_action (env.poll k) (env.malloc k) st.stdin).2
        trace := st.trace ++
          [Event.devs_discover, Event.read_action, Event.alarm TIMEOUT,
            Event.write "e0010\x7b\"errorCode\": 1\x7d".toList] } := by
  have hf : fatal (env.devs_discover k) = false := by rw [hrc]; decide
  have e : read_action (env.poll k) (env.malloc k) st.stdin =
      (Ret.clobbered, (read_action (env.poll k) (env.malloc k) st.stdin).2) :=
    Prod.ext hr rfl
  have hre : report_error env.strerror U2FH_TRANSPORT_ERROR none =
      some "e0010\x7b\"errorCode\": 1\x7d".toList := by
    have hn : (report_error_text env.strerror U2FH_TRANSPORT_ERROR none).length = 16 := by
      simp [report_error_text, printf_d_code]
    rw [report_error_fits env.strerror U2FH_TRANSPORT_ERROR none (by omega), hn]
    have h16 : hex4 16 = "0010".toList := by decide
    have h1 := printf_d_code U2FH_TRANSPORT_ERROR
    have hc : report_error_code U2FH_TRANSPORT_ERROR = 1 := by decide
    rw [hc] at h1
    simp [report_error_text, h16, hc, h1]
  have hit := iteration_empty env k st ha hf
  rw [e] at hit
  simp only [] at hit
  rw [hit, hrc, notice_ok]
  simp [dispatch, reset_quit_timer, State.log, he, hor, hos, do_report_error, hre]

/-! ## What the slot holds -/

theorem perform_action (env : Env) (call : CString → CString → u2fh_rc × CString)
    (ev : CString → CString → Event) (label : CString) (a : OP) (st : State) :
    (perform env call ev label a st).state.action = st.action ∨
      (perform env call ev label a st).state.action = none := by
  unfold perform
  split
  · simp only
    split
    · split
      · rename_i st2 h2
        obtain ⟨bytes, rfl⟩ := do_report_error_some _ _ _ _ _ h2
        split
        · left; rfl
        · right; rfl
      · left; rfl
    · right; rfl
  · left; rfl

theorem dispatch_action (env : Env) (k : Nat) (rc : u2fh_rc) (st : State) :
    (dispatch env k rc st).state.action = st.action ∨
      (dispatch env k rc st).state.action = none := by
  unfold dispatch
  split
  · left; rfl
  · split
    · split
      · left; rfl
      · split
        · exact perform_action _ _ _ _ _ _
        · split
          · exact perform_action _ _ _ _ _ _
          · split
            · rename_i st1 h1
              obtain ⟨bytes, rfl⟩ := do_report_error_some _ _ _ _ _ h1
              left; rfl
            · left; rfl
    · left; rfl

theorem slotOk_of_none (env : Env) (st : State) (h : st.action = none) : SlotOk env st := by
  intro a ha
  rw [h] at ha
  cases ha

theorem slotOk_of_action (env : Env) (st1 st : State) (hok : SlotOk env st)
    (h : st1.action = st.action ∨ st1.action = none) : SlotOk env st1 := by
  rcases h with h | h
  · intro a ha
    rw [h] at ha
    exact hok a ha
  · exact slotOk_of_none env st1 h

/-- A turn of the loop leaves in the slot nothing but what `read_action` has
put there. -/
theorem slotOk_iteration (env : Env) (k : Nat) (st : State) (hok : SlotOk env st) :
    SlotOk env (iteration env k st).state := by
  cases hf : fatal (env.devs_discover k) with
  | true =>
    have h := (fatal_iff _).1 hf
    unfold iteration
    simp only []
    rw [if_pos h]
    split
    · rename_i st1 h1
      obtain ⟨bytes, rfl⟩ := do_report_error_some _ _ _ _ _ h1
      exact slotOk_of_action env _ st hok (Or.inl rfl)
    · exact slotOk_of_action env _ st hok (Or.inl rfl)
  | false =>
    cases hact : st.action with
    | some a =>
      rw [iteration_pending env k st a hact hf]
      have h1 : SlotOk env (notice (env.devs_discover k)
          (st.log [Event.devs_discover, Event.sleep 1])) :=
        slotOk_of_action env _ st hok (Or.inl (by rw [notice_action]; rfl))
      exact slotOk_of_action env _ _ h1 (dispatch_action _ _ _ _)
    | none =>
      rw [iteration_empty env k st hact hf]
      rcases hres : read_action (env.poll k) (env.malloc k) st.stdin with ⟨r, s⟩
      have hres1 : (read_action (env.poll k) (env.malloc k) st.stdin).1 = r := by rw [hres]
      cases r with
      | null =>
        exact slotOk_of_none env _ (by simp only [Outcome.state, notice_action]; exact hact)
      | clobbered =>
        have hpm : env.poll k = true ∧ env.malloc k = true := by
          rcases read_action_cases (env.poll k) (env.malloc k) st.stdin with
            ⟨_, h1⟩ | ⟨_, h1⟩ | ⟨hp, hm, _⟩ | ⟨hp, hm, _⟩
          · rw [h1] at hres1; cases hres1
          · rw [h1] at hres1; cases hres1
          · exact ⟨hp, hm⟩
          · exact ⟨hp, hm⟩
        rw [hpm.1, hpm.2] at hres1
        have h1 : SlotOk env (notice (env.devs_discover k) (reset_quit_timer
            ({ st with action := some (env.clobber st.stdin), stdin := s }.log
              [Event.devs_discover, Event.read_action]))) := by
          intro c hc
          rw [notice_action] at hc
          injection hc with hc
          subst hc
          exact Or.inr ⟨st.stdin, hres1, rfl⟩
        exact slotOk_of_action env _ _ h1 (dispatch_action _ _ _ _)
      | ptr b =>
        have hb := read_action_ok _ _ _ b hres1
        have h1 : SlotOk env (notice (env.devs_discover k) (reset_quit_timer
            ({ st with action := some b, stdin := s }.log
              [Event.devs_discover, Event.read_action]))) := by
          intro c hc
          rw [notice_action] at hc
          injection hc with hc
          subst hc
          exact Or.inl hb
        exact slotOk_of_action env _ _ h1 (dispatch_action _ _ _ _)

theorem slotOk_loop (env : Env) (fuel : Nat) : ∀ (k : Nat) (st : State), SlotOk env st →
    SlotOk env (loop env fuel k st).state := by
  induction fuel with
  | zero => intro k st hok; exact hok
  | succ fuel ih =>
    intro k st hok
    have h3 := slotOk_iteration env k st hok
    rw [loop]
    cases hit : iteration env k st with
    | next st1 =>
      rw [hit] at h3
      exact ih (k + 1) st1 h3
    | done st1 =>
      rw [hit] at h3
      exact slotOk_of_action env _ st1 h3 (Or.inl rfl)
    | undefined st1 =>
      rw [hit] at h3
      exact h3

/-- In every run of `main` the slot holds nothing but what `read_action` has
put there. -/
theorem slotOk_main (env : Env) (fuel : Nat) (stdin : Stream) :
    SlotOk env (main env fuel stdin).state := by
  unfold main
  simp only []
  split
  · split
    · rename_i st1 h1
      obtain ⟨bytes, rfl⟩ := do_report_error_some _ _ _ _ _ h1
      exact slotOk_of_none env _ rfl
    · exact slotOk_of_none env _ rfl
  · split
    · split
      · rename_i st1 h1
        obtain ⟨bytes, rfl⟩ := do_report_error_some _ _ _ _ _ h1
        exact slotOk_of_none env _ rfl
      · exact slotOk_of_none env _ rfl
    · exact slotOk_loop env fuel 0 _ (slotOk_of_none env _ rfl)


/-! ## The claims -/

/-- C1, as the code has it: behind an op byte `r` or `s`, `read_action` takes
the first field of four hexadecimal digits (bytes 1-4) as the length of the
domain and the second (bytes 5-8) as the length of the challenge, then reads
that many bytes into the domain and then into the challenge, whatever the
delivery chunks are (standard input is readable and the block is allocated).
On `r00000004test` the result has op `r`, an empty domain and the challenge
`test`. -/
theorem read_action_header_order (op : Char) (dl cl D C tail : List Char) (s : Stream)
    (hop : op = 'r' ∨ op = 's')
    (hdl : dl.length = 4 ∧ ∀ c ∈ dl, isxdigit c = true)
    (hcl : cl.length = 4 ∧ ∀ c ∈ cl, isxdigit c = true)
    (hD : D.length = hexval dl) (hC : C.length = hexval cl)
    (hs : avail s = op :: (dl ++ cl ++ (D ++ (C ++ tail)))) :
    ((read_action true true s).1 = Ret.ptr { op := op, domain := some D, challenge := some C } ∧
      avail (read_action true true s).2 = tail) ∧
    (read_action true true ["r00000004test".toList]).1 =
      Ret.ptr { op := 'r', domain := some [], challenge := some "test".toList } := by
  refine ⟨?_, by decide⟩
  apply read_action_frame op (dl ++ cl) D C tail s hop
  · simp [hdl.1, hcl.1]
  · rw [List.take_left' hdl.1, strtol16_xdigits dl hdl.2, hD]
  · rw [List.drop_left' hdl.1, strtol16_xdigits cl hcl.2, hC]
  · exact hs

/-- Witness of C1: the frame `s` `0003` `0002` `abc` `de`, delivered in three chunks. -/
theorem read_action_header_order_witness :
    ((read_action true true ["s000".toList, "30002ab".toList, "cde!".toList]).1 =
        Ret.ptr { op := 's', domain := some "abc".toList, challenge := some "de".toList } ∧
      avail (read_action true true ["s000".toList, "30002ab".toList, "cde!".toList]).2 =
        "!".toList) ∧
    (read_action true true ["r00000004test".toList]).1 =
      Ret.ptr { op := 'r', domain := some [], challenge := some "test".toList } :=
  read_action_header_order 's' "0003".toList "0002".toList "abc".toList "de".toList
    "!".toList ["s000".toList, "30002ab".toList, "cde!".toList]
    (by decide) (by decide) (by decide) (by decide) (by decide) (by decide)

/-- Counterexample to C1 as stated: on `r00000004test` the domain is empty and
the challenge is `test`, not the other way round. -/
theorem read_action_scenario_swapped :
    (read_action true true ["r00000004test".toList]).1 =
        Ret.ptr { op := 'r', domain := some [], challenge := some "test".toList } ∧
      (read_action true true ["r00000004test".toList]).1 ≠
        Ret.ptr { op := 'r', domain := some "test".toList, challenge := some [] } := by
  decide

/-- C2, as the code has it: for a domain `D` and a challenge `C` of lengths
0 to 9999, the frame `r`, length of `D`, length of `C`, `D`, `C` (the lengths
written as four hexadecimal digits, the domain first), delivered in any split
into non-empty chunks, is read back as the action with op `r`, domain `D` and
challenge `C` (standard input is readable and the block is allocated). -/
theorem register_frame_round_trip (D C : List Char) (cs more : Stream)
    (hD : D.length ≤ 9999) (hC : C.length ≤ 9999)
    (hne : ∀ c ∈ cs, c ≠ []) (hcs : cs.flatten = register_frame D C) :
    (read_action true true (cs ++ more)).1 =
      Ret.ptr { op := 'r', domain := some D, challenge := some C } := by
  have hs : avail (cs ++ more) =
      'r' :: (hex4 D.length ++ hex4 C.length ++ (D ++ (C ++ avail more))) := by
    rw [avail_append cs more hne, hcs]
    simp [register_frame]
  refine (read_action_frame 'r' (hex4 D.length ++ hex4 C.length) D C (avail more) (cs ++ more)
    (Or.inl rfl) (by simp [hex4_length]) ?_ ?_ hs).1
  · rw [List.take_left' (hex4_length _), strtol16_hex4 _ (by omega)]
  · rw [List.drop_left' (hex4_length _), strtol16_hex4 _ (by omega)]

/-- Witness of C2: domain `ab`, challenge `xyz`, the frame cut into four chunks. -/
theorem register_frame_round_trip_witness :
    (read_action true true
        (["r0".toList, "00200".toList, "03a".toList, "bxyz".toList] ++ [[], "s".toList])).1 =
      Ret.ptr { op := 'r', domain := some "ab".toList, challenge := some "xyz".toList } :=
  register_frame_round_trip "ab".toList "xyz".toList
    ["r0".toList, "00200".toList, "03a".toList, "bxyz".toList] [[], "s".toList]
    (by decide) (by decide) (by decide) (by decide)

/-- Counterexample to C2 as stated: the frame of domain `ab` and challenge `xyz`
in the header order of the specification is `r00030002abxyz`, and it is read
back with domain `abx` and challenge `yz`. -/
theorem register_frame_spec_not_read_back :
    register_frame_spec "ab".toList "xyz".toList = "r00030002abxyz".toList ∧
      (read_action true true [register_frame_spec "ab".toList "xyz".toList]).1 =
        Ret.ptr { op := 'r', domain := some "abx".toList, challenge := some "yz".toList } ∧
      (read_action true true [register_frame_spec "ab".toList "xyz".toList]).1 ≠
        Ret.ptr { op := 'r', domain := some "ab".toList, challenge := some "xyz".toList } := by
  decide

/-- C3, as the code has it: when the library call for a pending Register or
Authenticate action succeeds with a payload `P` shorter than 65536 bytes, the
bytes written for that request are exactly `r`, the four hexadecimal digits of
the length of `P`, and `P`; the action is released.  For `ABC` the bytes are
`r0003ABC`. -/
theorem success_frame_written (env : Env) (k : Nat) (st : State) (a : OP)
    (domain challenge : List Char) (P : CString)
    (ha : st.action = some a) (hop : a.op = 'r' ∨ a.op = 's')
    (hd : a.domain = some domain) (hc : a.challenge = some challenge)
    (hcall : (if a.op = 'r' then env.register k else env.authenticate k)
      (cstr challenge) (cstr domain) = (U2FH_OK, P))
    (hP : P.length < 65536) :
    dispatch env k U2FH_OK st =
        Outcome.next { st with
          action := none
          response_freed := true
          trace := st.trace ++
            [(if a.op = 'r' then Event.register else Event.authenticate)
                (cstr challenge) (cstr domain),
              Event.write ('r' :: (hex4 P.length ++ P))] } ∧
      printf_response "ABC".toList = "r0003ABC".toList := by
  refine ⟨?_, by decide⟩
  have hfmt : printf_response P = 'r' :: (hex4 P.length ++ P) := by
    simp [printf_response, printf_04lx_small P.length hP, hex4]
  rw [dispatch_success env k st a domain challenge P ha hop hd hc hcall, hfmt]

/-- Witness of C3: a pending Register action for the domain `test`, answered with `ABC`. -/
theorem success_frame_written_witness :
    dispatch
        (example_env (U2FH_OK, "ABC".toList) (U2FH_TIMEOUT_ERROR, []))
        0 U2FH_OK
        { action := some { op := 'r', domain := some "test".toList, challenge := some [] },
          dev_insert_send := false, stdin := [], trace := [] } =
      Outcome.next
        { action := none, dev_insert_send := false, stdin := [],
          trace := [] ++ [(if 'r' = 'r' then Event.register else Event.authenticate)
              (cstr []) (cstr "test".toList),
            Event.write ('r' :: (hex4 "ABC".toList.length ++ "ABC".toList))],
          response_freed := true } ∧
      printf_response "ABC".toList = "r0003ABC".toList :=
  success_frame_written _ 0 _ { op := 'r', domain := some "test".toList, challenge := some [] }
    "test".toList [] "ABC".toList rfl (by decide) rfl rfl rfl (by decide)

/-- Counterexample to C3 as stated: for a payload of 65536 bytes the length is
written with five hexadecimal digits, `10000`. -/
theorem success_frame_five_digits :
    dispatch
        (example_env (U2FH_OK, List.replicate 65536 'A') (U2FH_OK, []))
        0 U2FH_OK
        { action := some { op := 'r', domain := some [], challenge := some [] },
          dev_insert_send := false, stdin := [], trace := [] } =
      Outcome.next
        { action := none, dev_insert_send := false, stdin := [],
          trace := [Event.register [] [],
            Event.write ('r' :: ("10000".toList ++ List.replicate 65536 'A'))],
          response_freed := true } ∧
      ('r' :: ("10000".toList ++ List.replicate 65536 'A')).length ≠ 1 + 4 + 65536 := by
  have h : printf_04lx 65536 = "10000".toList := by decide
  have e : printf_response (List.replicate 65536 'A') =
      'r' :: ("10000".toList ++ List.replicate 65536 'A') := by
    unfold printf_response
    rw [List.length_replicate, h, List.cons_append]
  constructor
  · rw [dispatch_success (example_env (U2FH_OK, List.replicate 65536 'A') (U2FH_OK, [])) 0 _
      { op := 'r', domain := some [], challenge := some [] } [] []
      (List.replicate 65536 'A') rfl (by decide) rfl rfl rfl, e]
    rfl
  · rw [List.length_cons, List.length_append, List.length_replicate]
    decide

/-- C4, as the code has it: for every error kind and every optional label
for which the JSON text has at most 1023 bytes (with its terminator it has to
fit the array of 1024), `report_error` writes exactly `e`, four hexadecimal
digits that read back as the byte length of the JSON text, and the JSON text:
the object with `errorCode` alone without a label, and with `errorMessage`
made of the label, a colon and the library's description with one.  `N` is
the one digit of the mapped code.  Without a label the frame starts `e0010`. -/
theorem error_frame_written (strerror : u2fh_rc → CString) (rc : u2fh_rc)
    (label : Option CString)
    (h : (report_error_text strerror rc label).length ≤ 1023) :
    report_error strerror rc label =
        some ('e' :: (hex4 (report_error_text strerror rc label).length ++
          report_error_text strerror rc label)) ∧
      strtol16 (hex4 (report_error_text strerror rc label).length) =
        ((report_error_text strerror rc label).length : Int) ∧
      report_error_text strerror rc label =
        (match label with
          | none =>
            "\x7b\"errorCode\": ".toList ++ [Char.ofNat (48 + (report_error_code rc).toNat)]
              ++ "\x7d".toList
          | some l =>
            "\x7b\"errorCode\": ".toList ++ [Char.ofNat (48 + (report_error_code rc).toNat)]
              ++ ", \"errorMessage\":\"".toList ++ l ++ ":".toList ++ strerror rc
              ++ "\"\x7d".toList) ∧
      report_error strerror rc none =
        some ("e0010\x7b\"errorCode\": ".toList ++
          [Char.ofNat (48 + (report_error_code rc).toNat)] ++ "\x7d".toList) := by
  refine ⟨report_error_fits strerror rc label h, strtol16_hex4 _ (by omega), ?_, ?_⟩
  · cases label <;> simp [report_error_text, printf_d_code]
  · have hn : (report_error_text strerror rc none).length = 16 := by
      simp [report_error_text, printf_d_code]
    rw [report_error_fits strerror rc none (by omega), hn]
    have h16 : hex4 16 = "0010".toList := by decide
    simp [report_error_text, printf_d_code, h16]

/-- Witness of C4: the authenticator error reported by `register`. -/
theorem error_frame_written_witness :
    report_error (fun _ => "denied".toList) U2FH_AUTHENTICATOR_ERROR (some "register".toList) =
        some ('e' :: (hex4 (report_error_text (fun _ => "denied".toList)
            U2FH_AUTHENTICATOR_ERROR (some "register".toList)).length ++
          report_error_text (fun _ => "denied".toList) U2FH_AUTHENTICATOR_ERROR
            (some "register".toList))) ∧
      strtol16 (hex4 (report_error_text (fun _ => "denied".toList)
          U2FH_AUTHENTICATOR_ERROR (some "register".toList)).length) =
        ((report_error_text (fun _ => "denied".toList) U2FH_AUTHENTICATOR_ERROR
          (some "register".toList)).length : Int) ∧
      report_error_text (fun _ => "denied".toList) U2FH_AUTHENTICATOR_ERROR
          (some "register".toList) =
        (match (some "register".toList : Option CString) with
          | none =>
            "\x7b\"errorCode\": ".toList ++
              [Char.ofNat (48 + (report_error_code U2FH_AUTHENTICATOR_ERROR).toNat)]
              ++ "\x7d".toList
          | some l =>
            "\x7b\"errorCode\": ".toList ++
              [Char.ofNat (48 + (report_error_code U2FH_AUTHENTICATOR_ERROR).toNat)]
              ++ ", \"errorMessage\":\"".toList ++ l ++ ":".toList ++ "denied".toList
              ++ "\"\x7d".toList) ∧
      report_error (fun _ => "denied".toList) U2FH_AUTHENTICATOR_ERROR none =
        some ("e0010\x7b\"errorCode\": ".toList ++
          [Char.ofNat (48 + (report_error_code U2FH_AUTHENTICATOR_ERROR).toNat)]
          ++ "\x7d".toList) :=
  error_frame_written (fun _ => "denied".toList) U2FH_AUTHENTICATOR_ERROR
    (some "register".toList) (by decide)

/-- C5: the error code of `report_error` is defined for every error kind; it
is 4 exactly for the authenticator error, 1 exactly for the memory and the
transport error, 5 exactly for the timeout, and 2 for every other kind, those
the library does not define included. -/
theorem report_error_code_table (rc : u2fh_rc) :
    (report_error_code rc = 4 ↔ rc = U2FH_AUTHENTICATOR_ERROR) ∧
    (report_error_code rc = 1 ↔ rc = U2FH_MEMORY_ERROR ∨ rc = U2FH_TRANSPORT_ERROR) ∧
    (report_error_code rc = 5 ↔ rc = U2FH_TIMEOUT_ERROR) ∧
    (report_error_code rc = 2 ↔
      ¬ (rc = U2FH_AUTHENTICATOR_ERROR ∨ rc = U2FH_MEMORY_ERROR ∨ rc = U2FH_TRANSPORT_ERROR ∨
        rc = U2FH_TIMEOUT_ERROR)) ∧
    (∀ v : Int, report_error_code (other v) = 2) := by
  refine ⟨?_, ?_, ?_, ?_, fun v => by simp [report_error_code]⟩ <;>
    cases rc <;> simp [report_error_code]

/-- C6: in every run of `main`, whatever discovery reports and whatever the
input is, the device-insert notice `i` is written at most once; a turn of the
loop never clears `dev_insert_send`, and it writes the notice only when
discovery reported no device and the flag was still unset, setting the flag
with it. -/
theorem notice_at_most_once (env : Env) (fuel : Nat) (stdin : Stream) :
    notices (main env fuel stdin).state.trace ≤ 1 ∧
    ∀ (k : Nat) (st : State),
      (st.dev_insert_send = true →
        (iteration env k st).state.dev_insert_send = true ∧
          notices (iteration env k st).state.trace = notices st.trace) ∧
      (notices (iteration env k st).state.trace ≠ notices st.trace →
        env.devs_discover k = U2FH_NO_U2F_DEVICE ∧ st.dev_insert_send = false ∧
          (iteration env k st).state.dev_insert_send = true ∧
          notices (iteration env k st).state.trace = notices st.trace + 1) := by
  refine ⟨(noticeInv_main env fuel stdin).1, fun k st => ⟨?_, ?_⟩⟩
  · intro hset
    rcases iteration_notice env k st with q | ⟨_, h2, _, _⟩
    · exact ⟨by rw [q.1, hset], q.2⟩
    · rw [hset] at h2
      exact absurd h2 (by decide)
  · intro hne
    rcases iteration_notice env k st with q | h
    · exact absurd q.2 hne
    · exact h

/-- C7, as the code has it: `read_action` does not check the header.  Each
field of four bytes goes through `strtol` in base 16, which skips white space,
takes a sign and a `0x`, stops at the first byte that is no hexadecimal digit
and gives 0 when it has read no digit: `zzzz` counts as 0, ` 1F ` and `0x1F`
as 31.  Whenever the two values are not negative, the block is allocated and
the stream delivers that many bytes, the result is the Register or
Authenticate action with a domain and a challenge of these lengths, and not
the sentinel. -/
theorem header_not_validated (op : Char) (hdr D C tail : List Char) (s : Stream)
    (hop : op = 'r' ∨ op = 's') (hh : hdr.length = 8)
    (hd : strtol16 (hdr.take 4) = (D.length : Int))
    (hc : strtol16 (hdr.drop 4) = (C.length : Int))
    (hs : avail s = op :: (hdr ++ (D ++ (C ++ tail)))) :
    ((read_action true true s).1 = Ret.ptr { op := op, domain := some D, challenge := some C } ∧
      (read_action true true s).1 ≠ Ret.ptr eof_op) ∧
    (strtol16 "zzzz".toList = 0 ∧ strtol16 " 1F ".toList = 31 ∧ strtol16 "0x1F".toList = 31 ∧
      strtol16 "-001".toList = -1) := by
  have h := (read_action_frame op hdr D C tail s hop hh hd hc hs).1
  refine ⟨⟨h, ?_⟩, by decide⟩
  rw [h]
  simp [eof_op]

/-- Witness of C7: the header ` 1F 0x02` announces 31 and 2 bytes. -/
theorem header_not_validated_witness :
    ((read_action true true
          ["r 1F 0x02".toList, "0123456789012345678901234567890".toList, "ab".toList]).1 =
        Ret.ptr
          { op := 'r',
            domain := some "0123456789012345678901234567890".toList,
            challenge := some "ab".toList } ∧
      (read_action true true
          ["r 1F 0x02".toList, "0123456789012345678901234567890".toList, "ab".toList]).1 ≠
        Ret.ptr eof_op) ∧
    (strtol16 "zzzz".toList = 0 ∧ strtol16 " 1F ".toList = 31 ∧ strtol16 "0x1F".toList = 31 ∧
      strtol16 "-001".toList = -1) :=
  header_not_validated 'r' " 1F 0x02".toList "0123456789012345678901234567890".toList
    "ab".toList []
    ["r 1F 0x02".toList, "0123456789012345678901234567890".toList, "ab".toList]
    (by decide) (by decide) (by decide) (by decide) (by decide)

/-- Counterexample to C7 as stated: behind `r`, the header `zzzzzzzz` gives a
Register action with two empty strings, and the header ` 1F 0x1F` one with two
strings of 31 bytes. -/
theorem malformed_header_accepted :
    (read_action true true ["rzzzzzzzz".toList]).1 =
        Ret.ptr { op := 'r', domain := some [], challenge := some [] } ∧
      (read_action true true ["rzzzzzzzz".toList]).1 ≠ Ret.ptr eof_op ∧
      (read_action true true
          ["r 1F 0x1F".toList, List.replicate 31 'd', List.replicate 31 'c']).1 =
        Ret.ptr
          { op := 'r',
            domain := some (List.replicate 31 'd'),
            challenge := some (List.replicate 31 'c') } := by
  decide

/-- C8: an op byte other than `r` and `s` makes `read_action` return the
sentinel it returns for a closed stream, and the turn of the loop that reads
it jumps to `done`: besides discovery, the read, the timer and possibly the
device-insert notice nothing happens in it (no call of register or
authenticate, no `r` or `e` frame), whether discovery found a device or not;
the process then exits. -/
theorem unknown_op_shuts_down (env : Env) (k : Nat) (st : State) (op : Char) (t : List Char)
    (hop : ¬ (op = 'r' ∨ op = 's')) (hs : avail st.stdin = op :: t)
    (ha : st.action = none) (hp : env.poll k = true)
    (hrc : env.devs_discover k = U2FH_OK ∨ env.devs_discover k = U2FH_NO_U2F_DEVICE) :
    (read_action true (env.malloc k) st.stdin).1 = Ret.ptr eof_op ∧
    (∀ s0 : Stream, avail s0 = [] → (read_action true (env.malloc k) s0).1 = Ret.ptr eof_op) ∧
    ∃ st1 : State, iteration env k st = Outcome.done st1 ∧
      st1.trace = st.trace ++ [Event.devs_discover, Event.read_action, Event.alarm TIMEOUT] ++
        (if env.devs_discover k ≠ U2FH_OK ∧ st.dev_insert_send = false
          then [Event.write ['i']] else []) ∧
      ∀ fuel : Nat, loop env (fuel + 1) k st = Run.exited (finish st1) := by
  have hr := (read_action_other_op (env.malloc k) op t st.stdin hop hs).1
  refine ⟨hr, fun s0 h0 => read_action_closed _ s0 h0, ?_⟩
  have hnf : ¬ (env.devs_discover k ≠ U2FH_OK ∧ env.devs_discover k ≠ U2FH_NO_U2F_DEVICE) := by
    rcases hrc with h | h <;> simp [h]
  have hfetch : fetch env k (st.log [Event.devs_discover]) =
      Outcome.next ({ st.log [Event.devs_discover] with
        action := some eof_op
        stdin := (read_action true (env.malloc k) st.stdin).2 }.log
          [Event.read_action, Event.alarm TIMEOUT]) := by
    have e : read_action true (env.malloc k) st.stdin =
        (Ret.ptr eof_op, (read_action true (env.malloc k) st.stdin).2) := by
      rw [← hr]
    unfold fetch
    simp only [State.log, ha, hp]
    rw [e]
    simp [reset_quit_timer, State.log]
  have hiter : ∃ st1 : State, iteration env k st = Outcome.done st1 ∧
      st1.trace = st.trace ++ [Event.devs_discover, Event.read_action, Event.alarm TIMEOUT] ++
        (if env.devs_discover k ≠ U2FH_OK ∧ st.dev_insert_send = false
          then [Event.write ['i']] else []) := by
    unfold iteration
    simp only [hnf, if_false, hfetch]
    refine ⟨_, dispatch_eof env k (env.devs_discover k) _ ?_, ?_⟩
    · rw [notice_action]
      rfl
    · rw [notice_trace]
      simp [State.log]
  obtain ⟨st1, h1, h2⟩ := hiter
  exact ⟨st1, h1, h2, fun fuel => by simp [loop, h1]⟩

/-- Witness of C8: the op byte `x` with a device present. -/
theorem unknown_op_shuts_down_witness :
    (read_action true ((example_env (U2FH_OK, []) (U2FH_OK, [])).malloc 0)
        (example_state ["x".toList]).stdin).1 = Ret.ptr eof_op ∧
    (∀ s0 : Stream, avail s0 = [] →
      (read_action true ((example_env (U2FH_OK, []) (U2FH_OK, [])).malloc 0) s0).1 =
        Ret.ptr eof_op) ∧
    ∃ st1 : State,
      iteration (example_env (U2FH_OK, []) (U2FH_OK, [])) 0 (example_state ["x".toList]) =
        Outcome.done st1 ∧
      st1.trace = (example_state ["x".toList]).trace ++
          [Event.devs_discover, Event.read_action, Event.alarm TIMEOUT] ++
        (if (example_env (U2FH_OK, []) (U2FH_OK, [])).devs_discover 0 ≠ U2FH_OK ∧
            (example_state ["x".toList]).dev_insert_send = false
          then [Event.write ['i']] else []) ∧
      ∀ fuel : Nat,
        loop (example_env (U2FH_OK, []) (U2FH_OK, [])) (fuel + 1) 0 (example_state ["x".toList]) =
          Run.exited (finish st1) :=
  unknown_op_shuts_down (example_env (U2FH_OK, []) (U2FH_OK, [])) 0 (example_state ["x".toList])
    'x' [] (by decide) (by decide) rfl rfl (Or.inl rfl)

/-- C9: when the stream delivers an op byte `r` or `s` and then runs dry (a
`read` returns zero bytes) before the frame is complete, inside the header of
eight bytes or inside the bytes that the header announces for the domain and
the challenge, `read_action` returns the sentinel, not an action with part of
the data, whatever the delivery chunks are and whether the block is allocated
or not.  A length field that `strtol` reads as negative announces no byte:
`read_n_bytes` skips its loop for it. -/
theorem truncated_frame_is_eof (m : Bool) (op : Char) (body : List Char) (s : Stream)
    (hop : op = 'r' ∨ op = 's') (hs : avail s = op :: body)
    (hshort : body.length < 8 ∨
      body.length < 8 + (strtol16 (body.take 4)).toNat +
        (strtol16 ((body.take 8).drop 4)).toNat) :
    (read_action true m s).1 = Ret.ptr eof_op := by
  by_cases h8 : body.length < 8
  · exact read_action_short_header m op body s hop h8 hs
  · rcases hshort with h | hlen
    · exact absurd h h8
    · have hh : (body.take 8).length = 8 := by simp; omega
      have e4 : (body.take 8).take 4 = body.take 4 := by
        rw [List.take_take]; simp
      apply read_action_short_body m op (body.take 8) (body.drop 8) s hop hh
      · rw [e4]
        have : (body.drop 8).length = body.length - 8 := by simp
        omega
      · rw [List.take_append_drop]
        exact hs

/-- Witness of C9: the header announces the lengths -1 and 5, two bytes arrive,
then the stream is closed. -/
theorem truncated_frame_is_eof_witness :
    (read_action true true ["r-001".toList, "0005a".toList, "b".toList, []]).1 =
      Ret.ptr eof_op :=
  truncated_frame_is_eof true 'r' "-0010005ab".toList
    ["r-001".toList, "0005a".toList, "b".toList, []] (by decide) (by decide)
    (Or.inr (by decide))

/-- C10: for a frame with op `r` or `s` and two length fields of four
hexadecimal digits, standard input being readable and the block allocated,
`read_action` returns the Register or Authenticate action (neither the
sentinel nor `NULL`) also when the domain length, the challenge length or both
are `0000`: the string of such a field is present and empty, the other string
is kept as it is, and exactly the bytes of the frame are taken from the
stream, a length of zero taking none. -/
theorem zero_length_fields (op : Char) (dl cl D C tail : List Char) (s : Stream)
    (hop : op = 'r' ∨ op = 's')
    (hdl : dl.length = 4 ∧ ∀ c ∈ dl, isxdigit c = true)
    (hcl : cl.length = 4 ∧ ∀ c ∈ cl, isxdigit c = true)
    (hD : D.length = hexval dl) (hC : C.length = hexval cl)
    (hs : avail s = op :: (dl ++ cl ++ (D ++ (C ++ tail)))) :
    (read_action true true s).1 = Ret.ptr { op := op, domain := some D, challenge := some C } ∧
    (read_action true true s).1 ≠ Ret.ptr eof_op ∧ (read_action true true s).1 ≠ Ret.null ∧
    (dl = "0000".toList → D = []) ∧ (cl = "0000".toList → C = []) ∧
    avail (read_action true true s).2 = tail ∧
    ∀ s0 : Stream, read_n_bytes 0 s0 = (true, [], s0) := by
  have h := read_action_frame op (dl ++ cl) D C tail s hop (by simp [hdl.1, hcl.1])
    (by rw [List.take_left' hdl.1, strtol16_xdigits dl hdl.2, hD])
    (by rw [List.drop_left' hdl.1, strtol16_xdigits cl hcl.2, hC]) hs
  have z : hexval "0000".toList = 0 := by decide
  refine ⟨h.1, ?_, ?_, ?_, ?_, h.2, fun s0 => rfl⟩
  · rw [h.1]; simp [eof_op]
  · rw [h.1]; simp
  · intro e
    rw [e, z] at hD
    exact List.length_eq_zero.1 hD
  · intro e
    rw [e, z] at hC
    exact List.length_eq_zero.1 hC

/-- Witness of C10: an Authenticate frame with an empty domain and the challenge `xyz`. -/
theorem zero_length_fields_witness :
    (read_action true true ["s0000".toList, "0003xyzr".toList]).1 =
      Ret.ptr { op := 's', domain := some [], challenge := some "xyz".toList } ∧
    (read_action true true ["s0000".toList, "0003xyzr".toList]).1 ≠ Ret.ptr eof_op ∧
    (read_action true true ["s0000".toList, "0003xyzr".toList]).1 ≠ Ret.null ∧
    ("0000".toList = "0000".toList → ([] : List Char) = []) ∧
    ("0003".toList = "0000".toList → "xyz".toList = []) ∧
    avail (read_action true true ["s0000".toList, "0003xyzr".toList]).2 = "r".toList ∧
    ∀ s0 : Stream, read_n_bytes 0 s0 = (true, [], s0) :=
  zero_length_fields 's' "0000".toList "0003".toList [] "xyz".toList "r".toList
    ["s0000".toList, "0003xyzr".toList] (by decide) (by decide) (by decide) (by decide)
    (by decide) (by decide)

/-- C11, where the code departs from it: when the library call for a
dispatched Register or Authenticate action fails (its description fitting the
buffer of `report_error`), the library has been called once for the action
and one error frame is written.  As long as no earlier request has succeeded
the slot is then emptied and the loop goes on, as the claim says, and a later
frame is read and served (third part: a refused Register, then an
Authenticate that is served).  After a request that succeeded, `response`
still points to the block released then, and `free(response)` releases it a
second time: the run has no defined continuation after the error frame, the
slot is not emptied and no later frame is read (second and fourth part). -/
theorem failed_request_double_free (env : Env) (k : Nat) (st : State) (a : OP)
    (domain challenge : List Char) (rc : u2fh_rc) (P : CString)
    (ha : st.action = some a) (hop : a.op = 'r' ∨ a.op = 's')
    (hd : a.domain = some domain) (hc : a.challenge = some challenge)
    (hcall : (if a.op = 'r' then env.register k else env.authenticate k)
      (cstr challenge) (cstr domain) = (rc, P))
    (hrc : rc ≠ U2FH_OK)
    (hfit : (report_error_text env.strerror rc
      (some (if a.op = 'r' then "register".toList else "authenticate".toList))).length ≤ 1023) :
    (st.response_freed = false →
      dispatch env k U2FH_OK st =
        Outcome.next { st with
          action := none
          trace := st.trace ++
            [(if a.op = 'r' then Event.register else Event.authenticate)
                (cstr challenge) (cstr domain),
              Event.write ('e' :: (hex4 (report_error_text env.strerror rc
                  (some (if a.op = 'r' then "register".toList
                    else "authenticate".toList))).length ++
                report_error_text env.strerror rc
                  (some (if a.op = 'r' then "register".toList
                    else "authenticate".toList))))] }) ∧
    (st.response_freed = true →
      dispatch env k U2FH_OK st =
        Outcome.undefined { st with
          trace := st.trace ++
            [(if a.op = 'r' then Event.register else Event.authenticate)
                (cstr challenge) (cstr domain),
              Event.write ('e' :: (hex4 (report_error_text env.strerror rc
                  (some (if a.op = 'r' then "register".toList
                    else "authenticate".toList))).length ++
                report_error_text env.strerror rc
                  (some (if a.op = 'r' then "register".toList
                    else "authenticate".toList))))] }) ∧
    main (example_env (U2FH_AUTHENTICATOR_ERROR, []) (U2FH_OK, "R".toList)) 3
        ["r00010001dc".toList, "s00010000e".toList] =
      Run.exited
        { action := some eof_op, dev_insert_send := false, stdin := [],
          trace := [Event.alarm 60, Event.devs_discover, Event.read_action, Event.alarm 60,
            Event.register "c".toList "d".toList,
            Event.write
              "e0031\x7b\"errorCode\": 4, \"errorMessage\":\"register:error\"\x7d".toList,
            Event.devs_discover, Event.read_action, Event.alarm 60,
            Event.authenticate [] "e".toList, Event.write "r0001R".toList,
            Event.devs_discover, Event.read_action, Event.alarm 60,
            Event.devs_done, Event.global_done, Event.exit 1],
          response_freed := true } ∧
    main (example_env (U2FH_OK, "R".toList) (U2FH_AUTHENTICATOR_ERROR, [])) 3
        ["r00010001dc".toList, "s00010000e".toList] =
      Run.undefined
        { action := some { op := 's', domain := some "e".toList, challenge := some [] },
          dev_insert_send := false, stdin := [],
          trace := [Event.alarm 60, Event.devs_discover, Event.read_action, Event.alarm 60,
            Event.register "c".toList "d".toList, Event.write "r0001R".toList,
            Event.devs_discover, Event.read_action, Event.alarm 60,
            Event.authenticate [] "e".toList,
            Event.write
              "e0035\x7b\"errorCode\": 4, \"errorMessage\":\"authenticate:error\"\x7d".toList],
          response_freed := true } := by
  exact ⟨fun hfr => dispatch_failure env k st a domain challenge rc P ha hop hd hc hcall hrc hfr hfit,
    fun hfr => dispatch_failure_freed env k st a domain challenge rc P ha hop hd hc hcall hrc hfr
      hfit, rfl, rfl⟩

/-- Witness of C11: a pending Authenticate request that the authenticator
refuses, after a request that succeeded. -/
theorem failed_request_double_free_witness :
    dispatch (example_env (U2FH_OK, []) (U2FH_AUTHENTICATOR_ERROR, [])) 1 U2FH_OK
        { action := some { op := 's', domain := some "d".toList, challenge := some "c".toList },
          dev_insert_send := false, stdin := [], trace := [], response_freed := true } =
      Outcome.undefined
        { action := some { op := 's', domain := some "d".toList, challenge := some "c".toList },
          dev_insert_send := false, stdin := [],
          trace := [Event.authenticate "c".toList "d".toList,
            Event.write
              "e0035\x7b\"errorCode\": 4, \"errorMessage\":\"authenticate:error\"\x7d".toList],
          response_freed := true } :=
  (failed_request_double_free (example_env (U2FH_OK, []) (U2FH_AUTHENTICATOR_ERROR, [])) 1
    { action := some { op := 's', domain := some "d".toList, challenge := some "c".toList },
      dev_insert_send := false, stdin := [], trace := [], response_freed := true }
    { op := 's', domain := some "d".toList, challenge := some "c".toList }
    "d".toList "c".toList U2FH_AUTHENTICATOR_ERROR [] rfl (by decide) rfl rfl rfl
    (by decide) (by decide)).2.1 rfl

/-- C12: the slot of the loop is one optional `OP`, so it holds one action at
most, and a turn that starts with an action in the slot does not call
`read_action` and takes nothing from standard input (third part).  In every
run of `main` the calls of register and authenticate are, in their order and
one for each, those for the first requests among the actions that
`read_action` finds on standard input (first part).  While the loop runs
nothing is skipped, duplicated or moved: the calls made so far, then the one
due for the request in the slot, then those for the requests still to be read
from what is left of standard input, are exactly the calls for the requests
of the input from its start (second part).  And the requests are served: with
a device present, standard input readable, memory at hand and a library that
succeeds, `main` makes the calls for all the requests of an input made of
frames, in the order of the frames, and then leaves (fourth part). -/
theorem requests_in_order (env : Env) (fuel k : Nat) (stdin : Stream) (st : State) (a : OP)
    (reqs : List OP) :
    calls (main env fuel stdin).state.trace <+:
      (frames_on env fuel stdin).flatMap calls_of ∧
    (∀ st1 : State, main env fuel stdin = Run.running st1 →
      ∃ j, j ≤ fuel ∧ ∀ n,
        calls st1.trace ++ (pending st1 ++ frames_on env n st1.stdin).flatMap calls_of =
          (frames_on env (n + j) stdin).flatMap calls_of) ∧
    (st.action = some a →
      reads (iteration env k st).state.trace = reads st.trace ∧
        (iteration env k st).state.stdin = st.stdin) ∧
    (env.global_init = U2FH_OK → env.devs_init = U2FH_OK →
      (∀ i, env.devs_discover i = U2FH_OK) → (∀ i, env.poll i = true) →
      (∀ i, env.malloc i = true) →
      (∀ i c d, (env.register i c d).1 = U2FH_OK) →
      (∀ i c d, (env.authenticate i c d).1 = U2FH_OK) →
      (∀ b ∈ reqs, Request b) → avail stdin = (reqs.map frame_bytes).flatten →
      ∃ st1 : State, main env (reqs.length + 1) stdin = Run.exited st1 ∧
        calls st1.trace = reqs.map call_of) := by
  obtain ⟨h1, h2⟩ := main_schedule env fuel stdin
  refine ⟨h1, h2, fun ha => ?_, ?_⟩
  · exact iteration_pending_frame Event.read_action (fun b h => by cases h)
      (fun x y h => by cases h) (fun x y h => by cases h) (fun h => by cases h)
      (fun h => by cases h) env k st a ha
  · intro hg hi hdev hpoll hmem hreg hauth hreq hs
    obtain ⟨st1, l1, l2⟩ := loop_serves env hdev hpoll hmem hreg hauth reqs 0
      (reset_quit_timer { action := none, dev_insert_send := false, stdin := stdin, trace := [] })
      hreq rfl hs
    refine ⟨st1, ?_, ?_⟩
    · simp only [main, hg, hi, ne_eq, not_true_eq_false, if_false]
      exact l1
    · rw [l2]
      simp [reset_quit_timer, State.log, calls]

/-- Witness of C12: a Register and an Authenticate frame that arrive in two
chunks cut inside the second header; both calls are made, in this order. -/
theorem requests_in_order_witness :
    ∃ st1 : State,
      main (example_env (U2FH_OK, "R".toList) (U2FH_OK, "S".toList)) 3
          ["r00010001dcs0001".toList, "0000e".toList] = Run.exited st1 ∧
        calls st1.trace =
          [Event.register "c".toList "d".toList, Event.authenticate [] "e".toList] :=
  (requests_in_order (example_env (U2FH_OK, "R".toList) (U2FH_OK, "S".toList)) 0 0
    ["r00010001dcs0001".toList, "0000e".toList] (example_state []) eof_op
    [{ op := 'r', domain := some "d".toList, challenge := some "c".toList },
      { op := 's', domain := some "e".toList, challenge := some [] }]).2.2.2
    rfl rfl (fun _ => rfl) (fun _ => rfl) (fun _ => rfl) (fun _ _ _ => rfl) (fun _ _ _ => rfl)
    (by
      intro b hb
      simp only [List.mem_cons, List.mem_singleton, List.not_mem_nil, or_false] at hb
      rcases hb with rfl | rfl <;> (unfold Request; decide))
    (by decide)

/-- C13: in a turn of the loop the action in the slot is dispatched exactly
when this turn's discovery found a device or the action is the sentinel.  A
Register or Authenticate action is not handed to the library in a turn whose
discovery found no device: it stays in the slot as it is, and nothing is read.
With a device present the call for it is made.  The sentinel leads to `done`
whatever discovery returned, and it does so in the very turn in which
`read_action` returns it. -/
theorem dispatch_rule (env : Env) (k : Nat) (st : State) (a : OP) (ha : st.action = some a) :
    (∀ rc : u2fh_rc, dispatch env k rc st = Outcome.next st ↔ ¬ (rc = U2FH_OK ∨ a.op = 'e')) ∧
    (a.op ≠ 'e' → env.devs_discover k = U2FH_NO_U2F_DEVICE →
      iteration env k st =
          Outcome.next (notice U2FH_NO_U2F_DEVICE
            (st.log [Event.devs_discover, Event.sleep 1])) ∧
        (iteration env k st).state.action = some a ∧
        (iteration env k st).state.stdin = st.stdin ∧
        calls (iteration env k st).state.trace = calls st.trace) ∧
    (ActionOk a → a.op ≠ 'e' →
      calls (dispatch env k U2FH_OK st).state.trace = calls st.trace ++ [call_of a]) ∧
    (a.op = 'e' → ∀ rc : u2fh_rc, dispatch env k rc st = Outcome.done st) ∧
    (∀ st0 : State, st0.action = none →
      (env.devs_discover k = U2FH_OK ∨ env.devs_discover k = U2FH_NO_U2F_DEVICE) →
      (read_action (env.poll k) (env.malloc k) st0.stdin).1 = Ret.ptr eof_op →
      ∃ st1 : State, iteration env k st0 = Outcome.done st1 ∧
        calls st1.trace = calls st0.trace) := by
  refine ⟨fun rc => ⟨?_, dispatch_waits env k rc st a ha⟩, ?_,
    fun hok hne => calls_dispatch env k st a ha hok hne, ?_, ?_⟩
  · intro h hd
    by_cases he : a.op = 'e'
    · simp [dispatch, ha, he] at h
    · have hrc : rc = U2FH_OK := by
        rcases hd with h1 | h1
        · exact h1
        · exact absurd h1 he
      by_cases hr : a.op = 'r'
      · have e : dispatch env k rc st =
            perform env (env.register k) Event.register "register".toList a st := by
          simp [dispatch, ha, he, hr, hrc]
        rw [e] at h
        exact perform_ne env _ _ _ a st a ha h
      · by_cases hs : a.op = 's'
        · have e : dispatch env k rc st =
              perform env (env.authenticate k) Event.authenticate "authenticate".toList a st := by
            simp [dispatch, ha, he, hr, hs, hrc]
          rw [e] at h
          exact perform_ne env _ _ _ a st a ha h
        · have e : dispatch env k rc st =
              match do_report_error env U2FH_TRANSPORT_ERROR none st with
              | some st1 => Outcome.done st1
              | none => Outcome.undefined st := by
            simp [dispatch, ha, he, hr, hs, hrc]
          rw [e] at h
          split at h <;> cases h
  · intro hne hk
    have hf : fatal (env.devs_discover k) = false := (fatal_false_iff _).2 (Or.inr hk)
    have hw : ¬ (U2FH_NO_U2F_DEVICE = U2FH_OK ∨ a.op = 'e') := by
      intro h
      rcases h with h | h
      · cases h
      · exact hne h
    have hit : iteration env k st =
        Outcome.next (notice U2FH_NO_U2F_DEVICE
          (st.log [Event.devs_discover, Event.sleep 1])) := by
      rw [iteration_pending env k st a ha hf, hk]
      exact dispatch_waits env k _ _ a (by rw [notice_action]; exact ha) hw
    refine ⟨hit, ?_, ?_, ?_⟩
    · rw [hit]
      simp only [Outcome.state, notice_action]
      exact ha
    · rw [hit]
      simp only [Outcome.state, notice]
      split <;> rfl
    · rw [hit]
      simp only [Outcome.state, calls_notice, State.log, calls_append]
      simp [calls]
  · intro he rc
    simp [dispatch, ha, he]
  · intro st0 h0 hrc hr
    obtain ⟨st1, h1, h2, _⟩ := iteration_eof env k st0 h0 ((fatal_false_iff _).2 hrc) hr
    refine ⟨st1, h1, ?_⟩
    rw [h2]
    simp only [calls_append]
    split <;> simp [calls]

/-- Witness of C13: a Register request waits in the slot and discovery finds no device. -/
theorem dispatch_rule_witness :
    iteration
        { example_env (U2FH_OK, []) (U2FH_OK, []) with
          devs_discover := fun _ => U2FH_NO_U2F_DEVICE }
        5
        { action := some { op := 'r', domain := some "d".toList, challenge := some "c".toList },
          dev_insert_send := true, stdin := ["s00000000".toList], trace := [] } =
      Outcome.next (notice U2FH_NO_U2F_DEVICE
        (State.log
          { action := some { op := 'r', domain := some "d".toList, challenge := some "c".toList },
            dev_insert_send := true, stdin := ["s00000000".toList], trace := [] }
          [Event.devs_discover, Event.sleep 1])) :=
  ((dispatch_rule
    { example_env (U2FH_OK, []) (U2FH_OK, []) with
      devs_discover := fun _ => U2FH_NO_U2F_DEVICE }
    5
    { action := some { op := 'r', domain := some "d".toList, challenge := some "c".toList },
      dev_insert_send := true, stdin := ["s00000000".toList], trace := [] }
    { op := 'r', domain := some "d".toList, challenge := some "c".toList } rfl).2.1
    (by decide) rfl).1

/-- C14: when discovery returns a result other than success and no-device
(the description of the error fitting the buffer of `report_error`), the turn
writes exactly one error frame, labelled `devs_discover` and carrying the code
mapped from that result, and goes to `done` at once: no frame is read, no
notice and no other frame is written, neither register nor authenticate is
called, and an action in the slot stays there untouched; the process exits. -/
theorem discovery_error_shuts_down (env : Env) (k : Nat) (st : State)
    (hrc : env.devs_discover k ≠ U2FH_OK ∧ env.devs_discover k ≠ U2FH_NO_U2F_DEVICE)
    (hfit : (report_error_text env.strerror (env.devs_discover k)
      (some "devs_discover".toList)).length ≤ 1023) :
    iteration env k st =
        Outcome.done { st with
          trace := st.trace ++ [Event.devs_discover,
            Event.write ('e' :: (hex4 (report_error_text env.strerror (env.devs_discover k)
                (some "devs_discover".toList)).length ++
              report_error_text env.strerror (env.devs_discover k)
                (some "devs_discover".toList)))] } ∧
      (∀ fuel : Nat, loop env (fuel + 1) k st =
        Run.exited { st with
          trace := st.trace ++ [Event.devs_discover,
            Event.write ('e' :: (hex4 (report_error_text env.strerror (env.devs_discover k)
                (some "devs_discover".toList)).length ++
              report_error_text env.strerror (env.devs_discover k)
                (some "devs_discover".toList))),
            Event.devs_done, Event.global_done, Event.exit EXIT_FAILURE] }) ∧
      report_error_text env.strerror (env.devs_discover k) (some "devs_discover".toList) =
        "\x7b\"errorCode\": ".toList ++
          [Char.ofNat (48 + (report_error_code (env.devs_discover k)).toNat)] ++
          ", \"errorMessage\":\"devs_discover:".toList ++ env.strerror (env.devs_discover k) ++
          "\"\x7d".toList := by
  have hit := iteration_fatal env k st ((fatal_iff _).2 hrc) hfit
  refine ⟨hit, fun fuel => ?_, ?_⟩
  · simp [loop, hit, finish, State.log]
  · simp [report_error_text, printf_d_code]

/-- Witness of C14: a transport error of discovery while a request waits in the slot. -/
theorem discovery_error_shuts_down_witness :
    iteration
        { example_env (U2FH_OK, []) (U2FH_OK, []) with
          devs_discover := fun _ => U2FH_TRANSPORT_ERROR }
        3
        { action := some { op := 'r', domain := some "d".toList, challenge := some [] },
          dev_insert_send := false, stdin := ["s00000000".toList], trace := [] } =
      Outcome.done
        { action := some { op := 'r', domain := some "d".toList, challenge := some [] },
          dev_insert_send := false, stdin := ["s00000000".toList],
          trace := [Event.devs_discover,
            Event.write "e0036\x7b\"errorCode\": 1, \"errorMessage\":\"devs_discover:error\"\x7d".toList] } :=
  (discovery_error_shuts_down
    { example_env (U2FH_OK, []) (U2FH_OK, []) with
      devs_discover := fun _ => U2FH_TRANSPORT_ERROR }
    3
    { action := some { op := 'r', domain := some "d".toList, challenge := some [] },
      dev_insert_send := false, stdin := ["s00000000".toList], trace := [] }
    (by decide) (by decide)).1

/-- C15: the timer is set to `TIMEOUT`, which is 60, once when `main` starts,
before anything else happens, and after that once in every turn of the loop
that starts with an empty slot and in which `read_action` returns a pointer
other than `NULL` (to the sentinel, to a block with a request, or to a block
that a negative length has spoilt), and in no other turn: not when
`read_action` returns `NULL`, not when an action is already in the slot, not
when discovery fails. -/
theorem watchdog_resets (env : Env) (k : Nat) (st : State) (stdin : Stream) :
    resets (main env 0 stdin).state.trace = 1 ∧
    (main env 0 stdin).state.trace.head? = some (Event.alarm TIMEOUT) ∧
    TIMEOUT = 60 ∧
    resets (iteration env k st).state.trace = resets st.trace +
      (if st.action = none ∧ fatal (env.devs_discover k) = false ∧
          (read_action (env.poll k) (env.malloc k) st.stdin).1 ≠ Ret.null
        then 1 else 0) ∧
    (st.action ≠ none → resets (iteration env k st).state.trace = resets st.trace) ∧
    ((read_action (env.poll k) (env.malloc k) st.stdin).1 = Ret.null →
      resets (iteration env k st).state.trace = resets st.trace) := by
  have hw : ∀ b, Event.alarm TIMEOUT ≠ Event.write b := by intro b h; cases h
  have hr : ∀ x y, Event.alarm TIMEOUT ≠ Event.register x y := by intro x y h; cases h
  have hau : ∀ x y, Event.alarm TIMEOUT ≠ Event.authenticate x y := by intro x y h; cases h
  have hd : Event.alarm TIMEOUT ≠ Event.devs_discover := by intro h; cases h
  have hs : Event.alarm TIMEOUT ≠ Event.sleep 1 := by intro h; cases h
  have hmain : resets (main env 0 stdin).state.trace = 1 ∧
      (main env 0 stdin).state.trace.head? = some (Event.alarm TIMEOUT) := by
    unfold main
    simp only []
    split
    · split
      · rename_i st1 h1
        obtain ⟨bytes, rfl⟩ := do_report_error_some _ _ _ _ _ h1
        simp [Run.state, State.log, reset_quit_timer, resets, List.count_cons]
      · simp [Run.state, State.log, reset_quit_timer, resets]
    · split
      · split
        · rename_i st1 h1
          obtain ⟨bytes, rfl⟩ := do_report_error_some _ _ _ _ _ h1
          simp [Run.state, State.log, reset_quit_timer, resets, List.count_cons, finish]
        · simp [Run.state, State.log, reset_quit_timer, resets]
      · simp [loop, Run.state, State.log, reset_quit_timer, resets]
  have hmainstep : resets (iteration env k st).state.trace = resets st.trace +
      (if st.action = none ∧ fatal (env.devs_discover k) = false ∧
          (read_action (env.poll k) (env.malloc k) st.stdin).1 ≠ Ret.null
        then 1 else 0) := by
    unfold resets
    cases hf : fatal (env.devs_discover k) with
    | true =>
      rw [(count_iteration_fatal _ hw hd env k st hf).1]
      simp
    | false =>
      cases hact : st.action with
      | some a =>
        rw [(iteration_pending_frame _ hw hr hau hd hs env k st a hact).1]
        simp
      | none =>
        rw [iteration_empty env k st hact hf]
        rcases hres : read_action (env.poll k) (env.malloc k) st.stdin with ⟨r, s⟩
        cases r with
        | null =>
          simp only [Outcome.state]
          rw [count_notice _ hw, count_log]
          simp [List.count_cons]
        | ptr b =>
          simp only []
          rw [count_dispatch _ hw hr hau, count_notice _ hw]
          simp [reset_quit_timer, State.log, List.count_append, List.count_cons]
        | clobbered =>
          simp only []
          rw [count_dispatch _ hw hr hau, count_notice _ hw]
          simp [reset_quit_timer, State.log, List.count_append, List.count_cons]
  refine ⟨hmain.1, hmain.2, rfl, hmainstep, ?_, ?_⟩
  · intro hne
    rw [hmainstep]
    simp [hne]
  · intro hnull
    rw [hmainstep, hnull]
    simp

/-- C16: `read_n_bytes` returns for every length `len ≥ 0` and every stream.
It goes on reading after each short `read`; when the stream delivers `len`
bytes before a `read` of zero bytes it returns 1, has stored exactly the next
`len` bytes in their order, and has taken no byte beyond them; it returns 0
exactly when a `read` gives zero bytes before `len` bytes are there. -/
theorem read_n_bytes_contract (len : Nat) (s : Stream) :
    ((read_n_bytes (len : Int) s).1 = false ↔ (avail s).length < len) ∧
    ((read_n_bytes (len : Int) s).1 = true ↔ len ≤ (avail s).length) ∧
    (len ≤ (avail s).length →
      (read_n_bytes (len : Int) s).2.1 = (avail s).take len ∧
      avail (read_n_bytes (len : Int) s).2.2 = (avail s).drop len ∧
      (s.flatten).take len = (avail s).take len ∧
      (read_n_bytes (len : Int) s).2.2.flatten = (s.flatten).drop len) ∧
    (0 < len →
      read_n_bytes (len : Int) s =
        if (read len s).1.length = 0 then (false, [], (read len s).2)
        else ((read_n_bytes ((len - (read len s).1.length : Nat) : Int) (read len s).2).1,
          (read len s).1 ++
            (read_n_bytes ((len - (read len s).1.length : Nat) : Int) (read len s).2).2.1,
          (read_n_bytes ((len - (read len s).1.length : Nat) : Int) (read len s).2).2.2)) := by
  have hok := read_n_bytes_ok (len : Int) len s rfl
  have hshort := read_n_bytes_short (len : Int) len s rfl
  refine ⟨⟨?_, hshort⟩, ⟨?_, fun h => (hok h).1⟩, ?_, read_n_bytes_unfold len s⟩
  · intro hf
    by_contra hn
    rw [(hok (by omega)).1] at hf
    exact absurd hf (by decide)
  · intro ht
    by_contra hn
    rw [hshort (by omega)] at ht
    exact absurd ht (by decide)
  · intro h
    obtain ⟨_, h2, h3⟩ := hok h
    have hf := read_n_bytes_flatten (len : Int) s
    rw [h2] at hf
    have hl : ((avail s).take len).length = len := by simp; omega
    have e1 : (s.flatten).take len = (avail s).take len := by
      rw [← hf, List.take_append_of_le_length (by omega), List.take_of_length_le (by omega)]
    refine ⟨h2, h3, e1, ?_⟩
    rw [← hf, List.drop_append_of_le_length (by omega), List.drop_of_length_le (by omega)]
    simp

/-- C17, where the code departs from it: whenever `read_action` returns a
pointer to the sentinel or to a block it has left intact, the op is `r`, `s`
or `e`, and in every run of `main` the slot holds nothing else but a block
that a negative length has spoilt.  Such a block breaks
the claim: for the input `r-0180016` followed by 22 bytes the two lengths are
-24 and 22, the 22 bytes are taken, and the stores of `read_action` land on
the fields of the block instead of the string area; `read_action` returns the
block, the timer is reset, and with an op in it that is none of `r`, `s` and
`e` the loop takes the last branch of the dispatch, writes the frame of a
transport error and leaves: in every turn that reads such a block with a
device present (sixth part), and in the run on this input (last part, where
the environment of the example finds the op NUL). -/
theorem op_normalised_unless_negative (ready m : Bool) (s : Stream) (env : Env)
    (fuel : Nat) (stdin : Stream) :
    (∀ b : OP, (read_action ready m s).1 = Ret.ptr b → b.op = 'r' ∨ b.op = 's' ∨ b.op = 'e') ∧
    SlotOk env (main env fuel stdin).state ∧
    strtol16 "-018".toList = -24 ∧ strtol16 "0016".toList = 22 ∧
    read_action true true ["r-0180016".toList, "ABCDEFGHIJKLMNOPQRSTUV".toList] =
      (Ret.clobbered, []) ∧
    (∀ (k : Nat) (st : State), st.action = none → env.devs_discover k = U2FH_OK →
      (read_action (env.poll k) (env.malloc k) st.stdin).1 = Ret.clobbered →
      (env.clobber st.stdin).op ≠ 'e' → (env.clobber st.stdin).op ≠ 'r' →
      (env.clobber st.stdin).op ≠ 's' →
      iteration env k st =
        Outcome.done { st with
          action := some (env.clobber st.stdin)
          stdin := (read_action (env.poll k) (env.malloc k) st.stdin).2
          trace := st.trace ++
            [Event.devs_discover, Event.read_action, Event.alarm TIMEOUT,
              Event.write "e0010\x7b\"errorCode\": 1\x7d".toList] }) ∧
    main (example_env (U2FH_OK, []) (U2FH_OK, [])) 1
        ["r-0180016".toList, "ABCDEFGHIJKLMNOPQRSTUV".toList] =
      Run.exited
        { action := some { op := Char.ofNat 0, domain := none, challenge := none },
          dev_insert_send := false, stdin := [],
          trace := [Event.alarm 60, Event.devs_discover, Event.read_action, Event.alarm 60,
            Event.write "e0010\x7b\"errorCode\": 1\x7d".toList,
            Event.devs_done, Event.global_done, Event.exit 1] } := by
  refine ⟨fun b h => actionOk_op b (read_action_ok ready m s b h),
    slotOk_main env fuel stdin, by decide, by decide, by decide,
    fun k st ha hrc hr he hor hos => iteration_last_branch env k st ha hrc hr he hor hos, rfl⟩

/-- C18: when `malloc` fails in `read_action` (the op byte is `r` or `s` and
the header has arrived; these nine bytes are taken), the result is the
sentinel `eof_op`, the same that a closed stream gives; the turn of the loop then goes to `done` as it does at
the end of the stream, with the same events, and writes no error frame for
the failed allocation: standard output gets nothing in it but the notice that
may be due. -/
theorem allocation_failure_is_eof (env : Env) (k : Nat) (st : State) (op : Char)
    (hdr rest : List Char) (ha : st.action = none) (hp : env.poll k = true)
    (hm : env.malloc k = false)
    (hrc : env.devs_discover k = U2FH_OK ∨ env.devs_discover k = U2FH_NO_U2F_DEVICE)
    (hop : op = 'r' ∨ op = 's') (hh : hdr.length = 8)
    (hs : avail st.stdin = op :: (hdr ++ rest)) :
    (read_action true false st.stdin).1 = Ret.ptr eof_op ∧
    avail (read_action true false st.stdin).2 = rest ∧
    (∀ (m : Bool) (s0 : Stream), avail s0 = [] → (read_action true m s0).1 = Ret.ptr eof_op) ∧
    ∃ st1 : State, iteration env k st = Outcome.done st1 ∧
      st1.trace = st.trace ++ [Event.devs_discover, Event.read_action, Event.alarm TIMEOUT] ++
        (if env.devs_discover k ≠ U2FH_OK ∧ st.dev_insert_send = false
          then [Event.write ['i']] else []) ∧
      output st1.trace = output st.trace ++
        (if env.devs_discover k ≠ U2FH_OK ∧ st.dev_insert_send = false then ['i'] else []) ∧
      (∀ fuel : Nat, loop env (fuel + 1) k st = Run.exited (finish st1)) ∧
      ∀ st2 : State, st2.action = none → avail st2.stdin = [] → st2.trace = st.trace →
        st2.dev_insert_send = st.dev_insert_send →
        ∃ st3 : State, iteration env k st2 = Outcome.done st3 ∧ st3.trace = st1.trace := by
  have hf := (fatal_false_iff _).2 hrc
  have hr : (read_action (env.poll k) (env.malloc k) st.stdin).1 = Ret.ptr eof_op := by
    rw [hp, hm]; exact read_action_no_memory _
  refine ⟨read_action_no_memory _, read_action_no_memory_rest op hdr rest _ hop hh hs,
    fun m s0 h0 => read_action_closed m s0 h0, ?_⟩
  obtain ⟨st1, h1, h2, h3⟩ := iteration_eof env k st ha hf hr
  refine ⟨st1, h1, h2, ?_, h3, ?_⟩
  · rw [h2]
    simp only [output_append]
    split <;> simp [output]
  · intro st2 ha2 hs2 ht2 hd2
    have hr2 : (read_action (env.poll k) (env.malloc k) st2.stdin).1 = Ret.ptr eof_op := by
      rw [hp]; exact read_action_closed _ _ hs2
    obtain ⟨st3, g1, g2, _⟩ := iteration_eof env k st2 ha2 hf hr2
    exact ⟨st3, g1, by rw [g2, h2, ht2, hd2]⟩

/-- Witness of C18: the frame `r00010001ab` arrives and no block can be had. -/
theorem allocation_failure_is_eof_witness :
    (read_action true false (example_state ["r00010001ab".toList]).stdin).1 = Ret.ptr eof_op :=
  (allocation_failure_is_eof
    { example_env (U2FH_OK, []) (U2FH_OK, []) with malloc := fun _ => false }
    0 (example_state ["r00010001ab".toList]) 'r' "00010001".toList "ab".toList
    rfl rfl rfl (Or.inl rfl) (by decide) (by decide) (by decide)).1

/-- C19: for a complete frame with op `r` or `s` and two header fields of four
hexadecimal digits with the values `a` and `b`, `read_action` takes exactly
the `9 + a + b` bytes of the frame from the input and leaves the bytes after
them as they are; with a second such frame right behind the first, two calls
in a row return the action of the first frame and then the action of the
second (standard input is readable and the blocks are allocated). -/
theorem frames_back_to_back (op1 op2 : Char) (dl1 cl1 D1 C1 dl2 cl2 D2 C2 tail : List Char)
    (s : Stream) (hop1 : op1 = 'r' ∨ op1 = 's') (hop2 : op2 = 'r' ∨ op2 = 's')
    (hdl1 : dl1.length = 4 ∧ ∀ c ∈ dl1, isxdigit c = true)
    (hcl1 : cl1.length = 4 ∧ ∀ c ∈ cl1, isxdigit c = true)
    (hdl2 : dl2.length = 4 ∧ ∀ c ∈ dl2, isxdigit c = true)
    (hcl2 : cl2.length = 4 ∧ ∀ c ∈ cl2, isxdigit c = true)
    (hD1 : D1.length = hexval dl1) (hC1 : C1.length = hexval cl1)
    (hD2 : D2.length = hexval dl2) (hC2 : C2.length = hexval cl2)
    (hs : avail s = op1 :: (dl1 ++ cl1 ++ (D1 ++ (C1 ++
      (op2 :: (dl2 ++ cl2 ++ (D2 ++ (C2 ++ tail)))))))) :
    (read_action true true s).1 =
        Ret.ptr { op := op1, domain := some D1, challenge := some C1 } ∧
      (op1 :: (dl1 ++ cl1 ++ (D1 ++ C1))).length = 9 + hexval dl1 + hexval cl1 ∧
      op1 :: (dl1 ++ cl1 ++ (D1 ++ C1)) ++ (read_action true true s).2.flatten = s.flatten ∧
      avail (read_action true true s).2 = op2 :: (dl2 ++ cl2 ++ (D2 ++ (C2 ++ tail))) ∧
      (read_action true true (read_action true true s).2).1 =
        Ret.ptr { op := op2, domain := some D2, challenge := some C2 } ∧
      avail (read_action true true (read_action true true s).2).2 = tail := by
  have t1 : strtol16 ((dl1 ++ cl1).take 4) = (D1.length : Int) := by
    rw [List.take_left' hdl1.1, strtol16_xdigits dl1 hdl1.2, hD1]
  have t2 : strtol16 ((dl1 ++ cl1).drop 4) = (C1.length : Int) := by
    rw [List.drop_left' hdl1.1, strtol16_xdigits cl1 hcl1.2, hC1]
  have t3 : strtol16 ((dl2 ++ cl2).take 4) = (D2.length : Int) := by
    rw [List.take_left' hdl2.1, strtol16_xdigits dl2 hdl2.2, hD2]
  have t4 : strtol16 ((dl2 ++ cl2).drop 4) = (C2.length : Int) := by
    rw [List.drop_left' hdl2.1, strtol16_xdigits cl2 hcl2.2, hC2]
  have l1 : (dl1 ++ cl1).length = 8 := by simp [hdl1.1, hcl1.1]
  have l2 : (dl2 ++ cl2).length = 8 := by simp [hdl2.1, hcl2.1]
  have f1 := read_action_frame op1 (dl1 ++ cl1) D1 C1 _ s hop1 l1 t1 t2 hs
  have g1 := read_action_frame_rest op1 (dl1 ++ cl1) D1 C1 _ s hop1 l1 t1 t2 hs
  have f2 := read_action_frame op2 (dl2 ++ cl2) D2 C2 tail (read_action true true s).2
    hop2 l2 t3 t4 f1.2
  refine ⟨f1.1, ?_, g1, f1.2, f2.1, f2.2⟩
  simp [hdl1.1, hcl1.1, hD1, hC1]
  omega

/-- Witness of C19: a Register frame and an Authenticate frame in three chunks. -/
theorem frames_back_to_back_witness :
    (read_action true true ["r0002".toList, "0001abxs0000".toList, "0003xyz!".toList]).1 =
        Ret.ptr { op := 'r', domain := some "ab".toList, challenge := some "x".toList } ∧
      ('r' :: ("0002".toList ++ "0001".toList ++ ("ab".toList ++ "x".toList))).length =
        9 + hexval "0002".toList + hexval "0001".toList ∧
      'r' :: ("0002".toList ++ "0001".toList ++ ("ab".toList ++ "x".toList)) ++
          (read_action true true
            ["r0002".toList, "0001abxs0000".toList, "0003xyz!".toList]).2.flatten =
        (["r0002".toList, "0001abxs0000".toList, "0003xyz!".toList] : Stream).flatten ∧
      avail (read_action true true
          ["r0002".toList, "0001abxs0000".toList, "0003xyz!".toList]).2 =
        's' :: ("0000".toList ++ "0003".toList ++ ([] ++ ("xyz".toList ++ "!".toList))) ∧
      (read_action true true (read_action true true
          ["r0002".toList, "0001abxs0000".toList, "0003xyz!".toList]).2).1 =
        Ret.ptr { op := 's', domain := some [], challenge := some "xyz".toList } ∧
      avail (read_action true true (read_action true true
          ["r0002".toList, "0001abxs0000".toList, "0003xyz!".toList]).2).2 = "!".toList :=
  frames_back_to_back 'r' 's' "0002".toList "0001".toList "ab".toList "x".toList
    "0000".toList "0003".toList [] "xyz".toList "!".toList
    ["r0002".toList, "0001abxs0000".toList, "0003xyz!".toList]
    (by decide) (by decide) (by decide) (by decide) (by decide) (by decide)
    (by decide) (by decide) (by decide) (by decide) (by decide)

end U2f4moz
